import Mathlib

/-!
Verification development for the genius-board tabular data engine.

The TypeScript core (csv-parser.ts, kpi-calculator.ts, data-cleaner.ts and
the filter evaluators in FilterContext.tsx and the dashboard page) is
shallowly embedded below.  JavaScript cell values (string, number, Date,
null, plus the absent-key undefined) are modelled by the JsVal type with
finite numbers as rationals and NaN as its own constructor; rows are
association lists from column name to cell value, with a missing key
playing the role of undefined.  Date objects are abstracted by the string
they would serialize to; nothing the verified claims depend on inspects a
date beyond identity and string form.  Built-in parsers that the source
calls (Date parsing via the Date constructor, parseFloat) are either taken
as explicit function parameters of the embedded code or given small
executable models, as noted at each definition.
-/

/-- A JavaScript cell value as stored in parsed rows:
string, finite number, NaN (which still has typeof number), Date
(abstracted by its serialized string), or null. -/
inductive JsVal where
  | str (s : String)
  | num (q : ℚ)
  | nan
  | date (iso : String)
  | null
deriving DecidableEq, Repr

/-- A row object: association list from column name to cell value.
A key that is absent models an undefined property. -/
def Row := List (String × JsVal)
deriving DecidableEq, Repr

/-- Property read row[c]: none models undefined (absent key). -/
def getCell (row : Row) (c : String) : Option JsVal :=
  match row with
  | [] => Option.none
  | (k, v) :: rest => if k = c then some v else getCell rest c

/-- Property write row[c] = v: replaces the binding, or appends it when the
key was absent (JavaScript assignment adds the property). -/
def setCell (row : Row) (c : String) (v : JsVal) : Row :=
  match row with
  | [] => [(c, v)]
  | (k, w) :: rest => if k = c then (c, v) :: rest else (k, w) :: setCell rest c v

/-- Substring test, modelling the JavaScript String.prototype.includes. -/
def strIncludes (s sub : String) : Bool :=
  decide (sub.toList <:+: s.toList)

/-- Lowercasing, modelling String.prototype.toLowerCase (kept
character-by-character so that terms reduce in the kernel). -/
def strToLower (s : String) : String :=
  String.mk (s.toList.map Char.toLower)

/-- Uppercasing, modelling String.prototype.toUpperCase. -/
def strToUpper (s : String) : String :=
  String.mk (s.toList.map Char.toUpper)

/-- Strip leading and trailing whitespace from a character list. -/
def trimChars (cs : List Char) : List Char :=
  ((cs.dropWhile Char.isWhitespace).reverse.dropWhile Char.isWhitespace).reverse

/-- Whitespace trim, modelling String.prototype.trim. -/
def strTrim (s : String) : String :=
  String.mk (trimChars s.toList)

/-- Code-unit lexicographic order on character lists, modelling the
JavaScript string comparison used by the default Array sort. -/
def charListLt : List Char → List Char → Bool
  | [], [] => false
  | [], _ :: _ => true
  | _ :: _, [] => false
  | a :: as, b :: bs => if a < b then true else if b < a then false else charListLt as bs

/-- Array.prototype.join with a separator (used for CSV assembly). -/
def joinWith (sep : String) : List String → String
  | [] => ""
  | [x] => x
  | x :: y :: rest => x ++ sep ++ joinWith sep (y :: rest)

/-- String form of a finite JavaScript number.  The exact digit string JS
would print is abstracted by the canonical rational rendering; no verified
claim depends on the concrete digits, only on the function being fixed. -/
def jsNumToString (q : ℚ) : String := toString q

/-- The JavaScript String(v) coercion on a possibly-undefined cell value.
Date-to-string is abstracted by the stored date string. -/
def jsString (v : Option JsVal) : String :=
  match v with
  | Option.none => "undefined"
  | some (JsVal.str s) => s
  | some (JsVal.num q) => jsNumToString q
  | some JsVal.nan => "NaN"
  | some (JsVal.date s) => s
  | some JsVal.null => "null"

/-- Executable model of the numeric interpretation of a string used by the
JavaScript Number() coercion: optional sign, digits, optional fractional
digits.  Strings outside this fragment (and the non-finite spellings) are
mapped to Option.none, i.e. NaN. -/
def parseDigits : List Char → Option (Nat × Nat)
  | [] => Option.none
  | c :: rest =>
    if c.isDigit then
      match parseDigits rest with
      | Option.none =>
        if rest = [] then some (c.toNat - 48, 1) else Option.none
      | some (n, len) => some ((c.toNat - 48) * 10 ^ len + n, len + 1)
    else Option.none

/-- Parse an unsigned decimal (digits, optionally a dot and more digits). -/
def parseUnsignedDec (cs : List Char) : Option ℚ :=
  match cs.splitOn '.' with
  | [ds] =>
    match parseDigits ds with
    | some (n, _) => some (n : ℚ)
    | Option.none => Option.none
  | [ds, fs] =>
    match parseDigits ds, parseDigits fs with
    | some (n, _), some (f, len) => some ((n : ℚ) + (f : ℚ) / (10 ^ len : ℚ))
    | _, _ => Option.none
  | _ => Option.none

/-- Parse a signed decimal numeral. -/
def parseSignedDec (cs : List Char) : Option ℚ :=
  match cs with
  | '-' :: rest => (parseUnsignedDec rest).map (fun q => -q)
  | '+' :: rest => parseUnsignedDec rest
  | _ => parseUnsignedDec cs

/-- Model of the Number(s) string-to-number coercion: trimmed empty string
is 0, otherwise the decimal fragment above; none is NaN. -/
def jsNumberOfString (s : String) : Option ℚ :=
  let t := strTrim s
  if t = "" then some 0 else parseSignedDec t.toList

/-- Model of the Date parser behind new Date(s): a string of shape
YYYY-MM-DD becomes the order-preserving code y*10000 + m*100 + d; anything
else is an invalid date (none).  Only the relative order of parsed dates is
ever used by the embedded code. -/
def jsParseDate (s : String) : Option Int :=
  match s.toList.splitOn '-' with
  | [ys, ms, ds] =>
    if ys.length = 4 ∧ ms.length = 2 ∧ ds.length = 2 then
      match parseDigits ys, parseDigits ms, parseDigits ds with
      | some (y, _), some (m, _), some (d, _) =>
        some ((y : Int) * 10000 + (m : Int) * 100 + (d : Int))
      | _, _, _ => Option.none
    else Option.none
  | _ => Option.none

/-- The JavaScript Number(v) coercion on a possibly-undefined cell value:
undefined and NaN give NaN, null gives 0, strings parse numerically,
Date objects coerce through their time value. -/
def jsNumber (v : Option JsVal) : Option ℚ :=
  match v with
  | Option.none => Option.none
  | some (JsVal.num q) => some q
  | some JsVal.nan => Option.none
  | some JsVal.null => some 0
  | some (JsVal.str s) => jsNumberOfString s
  | some (JsVal.date s) => (jsParseDate s).map (fun i => (i : ℚ))

/-- JavaScript falsiness of a cell value (the !value test):
undefined, null, 0, NaN and the empty string are falsy. -/
def jsFalsy (v : Option JsVal) : Bool :=
  match v with
  | Option.none => true
  | some JsVal.null => true
  | some JsVal.nan => true
  | some (JsVal.num q) => q = 0
  | some (JsVal.str s) => s = ""
  | some (JsVal.date _) => false

/-- The new Date(value) coercion applied by the date-filter branch after
the falsiness guard: strings and stored dates go through the date parser,
finite numbers are (truncated) time values, NaN gives an invalid date. -/
def jsToDate (v : Option JsVal) : Option Int :=
  match v with
  | some (JsVal.str s) => jsParseDate s
  | some (JsVal.date s) => jsParseDate s
  | some (JsVal.num q) => some q.floor
  | _ => Option.none

/-- Text-filter operators (types/filter.ts TextFilter). -/
inductive TextOp where
  | equals | contains | startsWith | endsWith
deriving DecidableEq, Repr

/-- Number-filter operators (types/filter.ts NumberFilter). -/
inductive NumOp where
  | equals | greaterThan | lessThan | between
deriving DecidableEq, Repr

/-- The per-type payload of the Filter tagged union from types/filter.ts:
text, number (with optional upper bound for between), category (an
operator-in list of string values) and date (optional bounds, none
modelling a null bound). -/
inductive FilterData where
  | text (op : TextOp) (value : String)
  | number (op : NumOp) (value : ℚ) (valueTo : Option ℚ)
  | category (values : List String)
  | date (lo hi : Option Int)
deriving DecidableEq, Repr

/-- A Filter: id, columnName and isActive from BaseFilter, plus the
columnType-tagged payload.  The columnType tag of the source union is the
constructor of the data field. -/
structure DataFilter where
  id : String
  columnName : String
  isActive : Bool
  data : FilterData
deriving DecidableEq, Repr

/-- matchesFilter from src/context/FilterContext.tsx lines 85-140: applies a
single filter to a row.  Inactive filters pass; the category branch is
membership of String(value) in the values list (an empty list therefore
matches nothing). -/
def matchesFilter (row : Row) (filter : DataFilter) : Bool :=
  if !filter.isActive then true
  else
    let value := getCell row filter.columnName
    match filter.data with
    | FilterData.text op fv =>
      let textValue := strToLower (jsString value)
      let filterValue := strToLower fv
      match op with
      | TextOp.equals => textValue = filterValue
      | TextOp.contains => strIncludes textValue filterValue
      | TextOp.startsWith => decide (filterValue.toList <+: textValue.toList)
      | TextOp.endsWith => decide (filterValue.toList <:+ textValue.toList)
    | FilterData.number op fv fvTo =>
      match jsNumber value with
      | Option.none => false
      | some numValue =>
        match op with
        | NumOp.equals => numValue = fv
        | NumOp.greaterThan => fv < numValue
        | NumOp.lessThan => numValue < fv
        | NumOp.between => fv ≤ numValue ∧ numValue ≤ fvTo.getD fv
    | FilterData.category values => values.contains (jsString value)
    | FilterData.date lo hi =>
      if jsFalsy value then false
      else
        match jsToDate value with
        | Option.none => false
        | some dateValue =>
          (match lo with | Option.none => true | some fb => fb ≤ dateValue) &&
          (match hi with | Option.none => true | some tb => dateValue ≤ tb)

/-- The column metadata record from types/csv.ts. -/
inductive ColumnType where
  | text | number | date | category
deriving DecidableEq, Repr

/-- ColumnInfo from types/csv.ts (dateFormat is never read by the embedded
functions and is omitted). -/
structure ColumnInfo where
  name : String
  type : ColumnType
  sampleValues : List String := []
  uniqueValues : Option (List String) := Option.none
  min : Option ℚ := Option.none
  max : Option ℚ := Option.none
deriving DecidableEq, Repr

/-- CsvData from types/csv.ts. -/
structure CsvData where
  columns : List ColumnInfo
  rows : List Row
  rawHeaders : List String
  fileName : String
  totalRows : Nat
deriving DecidableEq, Repr

/-- applyFilters from src/context/FilterContext.tsx lines 172-183 (the
filters argument stands for the filter list closed over from state; the
setCsvData bookkeeping call has no effect on the returned rows). -/
def applyFilters (filters : List DataFilter) (data : Option CsvData) : List Row :=
  match data with
  | Option.none => []
  | some d =>
    let activeFilters := filters.filter (fun f => f.isActive)
    if activeFilters.isEmpty then d.rows
    else d.rows.filter (fun row => activeFilters.all (fun filter => matchesFilter row filter))

/-- The inline per-row filter evaluation of the dashboard page variant
(the body of the every-callback inside its filteredData memo): identical to
matchesFilter except that the category branch lets an empty values list
match everything.  It is only ever applied to active filters, so there is
no isActive guard. -/
def dashboardMatches (row : Row) (filter : DataFilter) : Bool :=
  let value := getCell row filter.columnName
  match filter.data with
  | FilterData.text op fv =>
    let textValue := strToLower (jsString value)
    let filterValue := strToLower fv
    match op with
    | TextOp.equals => textValue = filterValue
    | TextOp.contains => strIncludes textValue filterValue
    | TextOp.startsWith => decide (filterValue.toList <+: textValue.toList)
    | TextOp.endsWith => decide (filterValue.toList <:+ textValue.toList)
  | FilterData.number op fv fvTo =>
    match jsNumber value with
    | Option.none => false
    | some numValue =>
      match op with
      | NumOp.equals => numValue = fv
      | NumOp.greaterThan => fv < numValue
      | NumOp.lessThan => numValue < fv
      | NumOp.between => fv ≤ numValue ∧ numValue ≤ fvTo.getD fv
  | FilterData.category values =>
    values.isEmpty || values.contains (jsString value)
  | FilterData.date lo hi =>
    if jsFalsy value then false
    else
      match jsToDate value with
      | Option.none => false
      | some dateValue =>
        (match lo with | Option.none => true | some fb => fb ≤ dateValue) &&
        (match hi with | Option.none => true | some tb => dateValue ≤ tb)

/-- Remove every comma and dollar character, the replace(/[,$]/g, ...) step
applied before numeric parsing in csv-parser.ts. -/
def stripCommaDollar (s : String) : String :=
  String.mk (s.toList.filter (fun c => c ≠ ',' ∧ c ≠ '$'))

/-- Character-shape matcher: the letter D stands for a decimal digit,
anything else must match literally. -/
def matchesShape (shape : String) (s : String) : Bool :=
  shape.length = s.length &&
    (shape.toList.zip s.toList).all (fun p => if p.1 = 'D' then p.2.isDigit else p.1 = p.2)

/-- The four fixed date regexes of detectColumnType, as shapes:
YYYY-MM-DD, MM/DD/YYYY, DD-MM-YYYY, YYYY/MM/DD. -/
def datePatternShapes : List String :=
  ["DDDD-DD-DD", "DD/DD/DDDD", "DD-DD-DDDD", "DDDD/DD/DD"]

/-- datePatterns.some(pattern => pattern.test(v)). -/
def matchesDatePattern (s : String) : Bool :=
  datePatternShapes.any (fun sh => matchesShape sh s)

/-- The name-like keyword list of detectColumnType (csv-parser.ts lines
42-55). -/
def nameLikeKeywords : List String :=
  ["customer", "client", "name", "user", "buyer", "seller",
   "vendor", "supplier", "person", "employee", "staff", "agent"]

/-- Keep the first occurrence of every element, dropping later repeats:
the contents of a JavaScript Set in insertion order. -/
def dedupKeepFirstAux {α : Type} [DecidableEq α] (seen : List α) : List α → List α
  | [] => []
  | x :: xs =>
    if x ∈ seen then dedupKeepFirstAux seen xs
    else x :: dedupKeepFirstAux (x :: seen) xs

/-- Distinct elements in first-occurrence order (new Set(xs)). -/
def dedupKeepFirst {α : Type} [DecidableEq α] (xs : List α) : List α :=
  dedupKeepFirstAux [] xs

/-- values.filter(v => v !== null && v !== undefined && v !== ''), the
first step of detectColumnType; none models null/undefined entries. -/
def nonEmptyValuesOf (values : List (Option String)) : List String :=
  values.filterMap (fun v =>
    match v with
    | some s => if s = "" then Option.none else some s
    | Option.none => Option.none)

/-- The classification sample: the first 100 non-empty values. -/
def sampleOf (values : List (Option String)) : List String :=
  (nonEmptyValuesOf values).take 100

/-- The date test of detectColumnType.  The validity of the Date
constructor on an arbitrary string is a parameter dateValid; the length
guard (strictly more than 6 characters) is part of the source. -/
def dateTestPasses (dateValid : String → Bool) (values : List (Option String)) : Bool :=
  (sampleOf values).all (fun v =>
    matchesDatePattern v || (dateValid v && decide (6 < v.length)))

/-- The number test of detectColumnType: every sampled value, stripped of
commas and dollar signs, parses as a finite float.  parseNum is the
parseFloat parameter; a some result means a finite parse. -/
def numberTestPasses (parseNum : String → Option ℚ) (values : List (Option String)) : Bool :=
  (sampleOf values).all (fun v => (parseNum (stripCommaDollar v)).isSome)

/-- new Set(sampleValues).size. -/
def sampleDistinctCount (values : List (Option String)) : Nat :=
  (dedupKeepFirst (sampleOf values)).length

/-- Whether the column name contains one of the name-like keywords
(case-insensitive substring match on (columnName || '').toLowerCase()). -/
def isNameLikeColumn (columnName : Option String) : Bool :=
  nameLikeKeywords.any (fun keyword => strIncludes (strToLower (columnName.getD "")) keyword)

/-- The cardinality ceiling for non-name-like category columns. -/
def categoryThreshold : Nat := 30

/-- detectColumnType from csv-parser.ts lines 5-74, with the two JS
builtins it consults (Date-constructor validity and finite parseFloat)
passed in as parameters. -/
def detectColumnType (dateValid : String → Bool) (parseNum : String → Option ℚ)
    (values : List (Option String)) (columnName : Option String) : ColumnType :=
  let nonEmptyValues := nonEmptyValuesOf values
  if nonEmptyValues.length = 0 then ColumnType.text
  else if dateTestPasses dateValid values then ColumnType.date
  else if numberTestPasses parseNum values then ColumnType.number
  else
    let isNameLike := isNameLikeColumn columnName
    if isNameLike && decide (2 ≤ nonEmptyValues.length) then ColumnType.category
    else if !isNameLike && decide (sampleDistinctCount values ≤ categoryThreshold)
        && decide (sampleDistinctCount values * 2 < nonEmptyValues.length) then
      ColumnType.category
    else ColumnType.text

/-- Insert a string into a list sorted ascending (helper for the default
lexicographic Array.prototype.sort). -/
def insertSortedString (s : String) : List String → List String
  | [] => [s]
  | t :: ts => if charListLt s.toList t.toList then s :: t :: ts else t :: insertSortedString s ts

/-- Ascending lexicographic sort, modelling the default Array sort applied
to the unique-value list. -/
def sortStrings : List String → List String
  | [] => []
  | s :: ss => insertSortedString s (sortStrings ss)

/-- getUniqueValues from csv-parser.ts lines 77-82: the sorted distinct
non-empty string forms of the full column (String(v) on a string is the
string itself). -/
def getUniqueValues (values : List (Option String)) : List String :=
  sortStrings (dedupKeepFirst (nonEmptyValuesOf values))

/-- KpiConfig from types/dashboard.ts; none models a null column role. -/
structure KpiConfig where
  salesColumn : Option String
  quantityColumn : Option String
  customerColumn : Option String
  dateColumn : Option String
  costColumn : Option String := Option.none
deriving DecidableEq, Repr

/-- The KPI numbers computed by calculateKpis.  JavaScript numbers that can
be NaN are Option rationals, with none standing for NaN. -/
structure KpiData where
  totalSales : Option ℚ
  totalOrders : Nat
  totalQuantity : Option ℚ
  averageOrderValue : Option ℚ
  uniqueCustomers : Nat
deriving DecidableEq, Repr

/-- JavaScript addition on possibly-NaN numbers: NaN is absorbing. -/
def jsAdd (a b : Option ℚ) : Option ℚ :=
  match a, b with
  | some x, some y => some (x + y)
  | _, _ => Option.none

/-- The per-cell term of the sales/quantity reduce:
typeof value === 'number' ? value : 0.  A NaN cell has typeof number and
so contributes NaN, not 0. -/
def numContribution (v : Option JsVal) : Option ℚ :=
  match v with
  | some (JsVal.num q) => some q
  | some JsVal.nan => Option.none
  | _ => some 0

/-- data.reduce((sum, row) => sum + (typeof v === 'number' ? v : 0), 0). -/
def sumColumn (data : List Row) (c : String) : Option ℚ :=
  data.foldl (fun sum row => jsAdd sum (numContribution (getCell row c))) (some 0)

/-- JavaScript truth of x > 0 for a possibly-NaN number (NaN > 0 is false). -/
def jsPos (a : Option ℚ) : Bool :=
  match a with
  | some q => decide (0 < q)
  | Option.none => false

/-- The unique-customer count: the size of the Set of String forms of the
non-null, non-undefined, non-empty-string cells of the customer column. -/
def distinctCustomerCount (data : List Row) (c : String) : Nat :=
  (dedupKeepFirst
    ((data.filterMap (fun row =>
        match getCell row c with
        | Option.none => Option.none
        | some JsVal.null => Option.none
        | some (JsVal.str "") => Option.none
        | some v => some v)).map (fun v => jsString (some v)))).length

/-- calculateKpis from kpi-calculator.ts lines 50-97.  The truthiness tests
on the configured column names (a null or empty-string column role is
skipped) are kept from the source. -/
def calculateKpis (data : List Row) (config : KpiConfig) : KpiData :=
  let kpis0 : KpiData :=
    { totalSales := some 0, totalOrders := data.length, totalQuantity := some 0,
      averageOrderValue := some 0, uniqueCustomers := 0 }
  if data.length = 0 then kpis0
  else
    let totalSales : Option ℚ :=
      match config.salesColumn with
      | some c => if c = "" then some 0 else sumColumn data c
      | Option.none => some 0
    let totalQuantity : Option ℚ :=
      match config.quantityColumn with
      | some c => if c = "" then some 0 else sumColumn data c
      | Option.none => some 0
    let averageOrderValue : Option ℚ :=
      if decide (0 < data.length) && jsPos totalSales then
        match totalSales with
        | some q => some (q / (data.length : ℚ))
        | Option.none => some 0
      else some 0
    let uniqueCustomers : Nat :=
      match config.customerColumn with
      | some c => if c = "" then 0 else distinctCustomerCount data c
      | Option.none => 0
    { totalSales := totalSales, totalOrders := data.length,
      totalQuantity := totalQuantity, averageOrderValue := averageOrderValue,
      uniqueCustomers := uniqueCustomers }

/-- The value that the specification text assigns to totalSales: a plain
sum in which every cell that is not a finite number, including a NaN cell,
contributes exactly 0.  Written from the words of the claim, to be
compared with the code-level sumColumn. -/
def specFiniteSum (data : List Row) (c : String) : ℚ :=
  data.foldl (fun sum row =>
    match getCell row c with
    | some (JsVal.num q) => sum + q
    | _ => sum) 0

/-- One exported CSV cell (convertToCsv lines 380-388): null/undefined
print as empty, Dates as their ISO day, strings with an embedded comma or
quote are wrapped in doubled-quote escaping, everything else through
String(value). -/
def csvCellString (v : Option JsVal) : String :=
  match v with
  | Option.none => ""
  | some JsVal.null => ""
  | some (JsVal.date iso) => iso
  | some (JsVal.str s) =>
    if s.toList.contains ',' || s.toList.contains '"' then
      "\"" ++ String.mk (s.toList.flatMap (fun c => if c = '"' then ['"', '"'] else [c])) ++ "\""
    else s
  | some (JsVal.num q) => jsNumToString q
  | some JsVal.nan => "NaN"

/-- convertToCsv from csv-parser.ts lines 370-393. -/
def convertToCsv (data : List Row) (columns : List ColumnInfo) : String :=
  if data.isEmpty then ""
  else
    let headers := columns.map (fun col => col.name)
    let csvRows := data.map (fun row =>
      joinWith "," (headers.map (fun header => csvCellString (getCell row header))))
    joinWith "\n" (joinWith "," headers :: csvRows)

/-- The error codes of types/csv.ts. -/
inductive CsvErrorCode where
  | CSV_INVALID | CSV_EMPTY | NO_HEADER | PARSE_ERROR | FILE_TOO_LARGE
deriving DecidableEq, Repr

/-- The tagged parse result of csv-parser.ts (success with data, or a
failure with message and code). -/
inductive CsvParseResult where
  | failure (error : String) (errorCode : CsvErrorCode)
  | success (data : CsvData)
deriving DecidableEq, Repr

/-- What the Papa.parse callback hands to the completion continuation: the
error list, the raw header-keyed string rows, and meta.fields. -/
structure PapaResults where
  errors : List String
  data : List (List (String × String))
  fields : Option (List String)
deriving DecidableEq, Repr

/-- Raw-record property read (row[header] on a Papa row). -/
def rawGet (row : List (String × String)) (c : String) : Option String :=
  match row with
  | [] => Option.none
  | (k, v) :: rest => if k = c then some v else rawGet rest c

/-- The typed-cell conversion of parseCsvFile lines 301-313: empty or
absent raw cells become null, number columns go through parseFloat (a
failed or non-finite parse is stored as NaN), date columns become Date
objects (abstracted by the raw string), everything else stays a string. -/
def convertCell (parseNum : String → Option ℚ) (colType : ColumnType)
    (value : Option String) : JsVal :=
  match value with
  | Option.none => JsVal.null
  | some s =>
    if s = "" then JsVal.null
    else if colType = ColumnType.number then
      match parseNum (stripCommaDollar s) with
      | some q => JsVal.num q
      | Option.none => JsVal.nan
    else if colType = ColumnType.date then JsVal.date s
    else JsVal.str s

/-- getNumberRange from csv-parser.ts lines 85-95; the empty-list case
(where the JS min/max of an empty spread are infinities) is abstracted as
an absent range. -/
def getNumberRange (parseNum : String → Option ℚ)
    (values : List (Option String)) : Option (ℚ × ℚ) :=
  let numbers := (nonEmptyValuesOf values).filterMap (fun v => parseNum (stripCommaDollar v))
  match numbers with
  | [] => Option.none
  | x :: xs => some (xs.foldl min x, xs.foldl max x)

/-- Column-info assembly for one header (parseCsvFile lines 274-295). -/
def buildColumnInfo (dateValid : String → Bool) (parseNum : String → Option ℚ)
    (data : List (List (String × String))) (header : String) : ColumnInfo :=
  let values := data.map (fun row => rawGet row header)
  let type := detectColumnType dateValid parseNum values (some header)
  { name := header
    type := type
    sampleValues := (values.take 5).filterMap id
    uniqueValues := if type = ColumnType.category then some (getUniqueValues values) else Option.none
    min := if type = ColumnType.number then (getNumberRange parseNum values).map Prod.fst else Option.none
    max := if type = ColumnType.number then (getNumberRange parseNum values).map Prod.snd else Option.none }

/-- The completion continuation of parseCsvFile (csv-parser.ts lines
241-330), as a function of what Papa.parse delivered: parse errors with no
rows are fatal PARSE_ERROR, an empty row set is CSV_EMPTY, missing headers
are NO_HEADER, otherwise columns are inferred and rows typed. -/
def parseCsvFromResults (dateValid : String → Bool) (parseNum : String → Option ℚ)
    (fileName : String) (results : PapaResults) : CsvParseResult :=
  if results.errors.length > 0 ∧ results.data.length = 0 then
    CsvParseResult.failure (results.errors.headD "") CsvErrorCode.PARSE_ERROR
  else if results.data.length = 0 then
    CsvParseResult.failure "CSV file is empty or has no valid data rows" CsvErrorCode.CSV_EMPTY
  else
    match results.fields with
    | Option.none =>
      CsvParseResult.failure "CSV file must have a header row" CsvErrorCode.NO_HEADER
    | some headers =>
      if headers.length = 0 then
        CsvParseResult.failure "CSV file must have a header row" CsvErrorCode.NO_HEADER
      else
        let columns := headers.map (buildColumnInfo dateValid parseNum results.data)
        let rows : List Row := results.data.map (fun row =>
          columns.map (fun col => (col.name, convertCell parseNum col.type (rawGet row col.name))))
        CsvParseResult.success
          { columns := columns, rows := rows, rawHeaders := headers,
            fileName := fileName, totalRows := rows.length }

/-- The placeholder vocabulary of MISSING_VALUE_PLACEHOLDERS
(data-cleaner.ts lines 24-40). -/
def missingPlaceholders : List String :=
  ["null", "n/a", "na", "nan", "none", "-", ".", "undefined", "missing",
   "#n/a", "#na", "(blank)", "blank", "(empty)", "empty"]

/-- isMissingValue from data-cleaner.ts lines 45-53: null, undefined, the
empty string, and any string whose trimmed lowercase form is empty or in
the placeholder vocabulary.  Numbers (including NaN) and Dates are never
missing. -/
def isMissingValue (value : Option JsVal) : Bool :=
  match value with
  | Option.none => true
  | some JsVal.null => true
  | some (JsVal.str s) =>
    if s = "" then true
    else
      let normalized := strToLower (strTrim s)
      normalized = "" || missingPlaceholders.contains normalized
  | some (JsVal.num _) => false
  | some JsVal.nan => false
  | some (JsVal.date _) => false

/-- The image of one cell under JSON.stringify: NaN serializes as null and
a Date as its string; all other values keep their identity.  Two rows get
the same duplicate-detection hash exactly when their hashRow images are
equal. -/
def hashCell : JsVal → JsVal
  | JsVal.nan => JsVal.null
  | JsVal.date s => JsVal.str s
  | v => v

/-- Row image under JSON.stringify, for duplicate hashing. -/
def hashRow (row : Row) : Row :=
  row.map (fun p => (p.1, hashCell p.2))

/-- The duplicate-removal pass of cleanData (lines 382-399): keep a row
when its hash has not been seen, in order. -/
def dedupRowsAux (seen : List Row) : List Row → List Row
  | [] => []
  | row :: rest =>
    if hashRow row ∈ seen then dedupRowsAux seen rest
    else row :: dedupRowsAux (hashRow row :: seen) rest

/-- Duplicate removal keeping first occurrences. -/
def dedupRows (rows : List Row) : List Row :=
  dedupRowsAux [] rows

/-- columns.every(col => isMissingValue(row[col.name])): a fully-empty
row. -/
def allEmptyRow (columns : List ColumnInfo) (row : Row) : Bool :=
  columns.all (fun col => isMissingValue (getCell row col.name))

/-- columnsToProcess.some(col => isMissingValue(row[col.name])). -/
def hasMissingIn (cols : List ColumnInfo) (row : Row) : Bool :=
  cols.any (fun col => isMissingValue (getCell row col.name))

/-- MissingValueStrategy from types/data-cleaner.ts. -/
inductive MissingValueStrategy where
  | remove_row | fill_empty | fill_zero | fill_average | fill_median
  | fill_mode | fill_custom
deriving DecidableEq, Repr

/-- CaseNormalizationStrategy from types/data-cleaner.ts. -/
inductive CaseStrategy where
  | lowercase | uppercase | titlecase | none
deriving DecidableEq, Repr

/-- CleaningOptions from types/data-cleaner.ts; customFillValue is the
optional custom fill string. -/
structure CleaningOptions where
  removeDuplicates : Bool
  trimWhitespace : Bool
  normalizeCase : Bool
  caseStrategy : CaseStrategy
  handleMissingValues : Bool
  missingValueStrategy : MissingValueStrategy
  customFillValue : Option String := Option.none
  removeEmptyRows : Bool
  columnsToClean : List String := []
deriving DecidableEq, Repr

/-- The counting fields of CleaningResult (the change-record list is the
per-mutation log; the claims under verification read only the counts, which
the source derives alongside it). -/
structure CleaningResult where
  success : Bool
  originalRowCount : Nat
  cleanedRowCount : Nat
  removedRows : Nat
  modifiedCells : Nat
deriving DecidableEq, Repr

/-- Ascending insertion for rational sort (the numeric comparator sort). -/
def insertSortedRat (q : ℚ) : List ℚ → List ℚ
  | [] => [q]
  | t :: ts => if q ≤ t then q :: t :: ts else t :: insertSortedRat q ts

/-- Ascending numeric sort, modelling sort((a, b) => a - b). -/
def sortRats : List ℚ → List ℚ
  | [] => []
  | q :: qs => insertSortedRat q (sortRats qs)

/-- The Map key used by the fill_mode tally: objects (Dates) go through
String(v), primitives key as themselves (NaN is a valid Map key equal to
itself under SameValueZero). -/
def modeKey (v : JsVal) : JsVal :=
  match v with
  | JsVal.date s => JsVal.str (jsString (some (JsVal.date s)))
  | v => v

/-- Increment the tally of one key, preserving first-seen insertion order
(JavaScript Map iteration order). -/
def bumpCount (counts : List (JsVal × Nat)) (k : JsVal) : List (JsVal × Nat) :=
  match counts with
  | [] => [(k, 1)]
  | (k0, n) :: rest => if k0 = k then (k0, n + 1) :: rest else (k0, n) :: bumpCount rest k

/-- The full tally of fill_mode candidate values in first-seen order. -/
def countsOf (vs : List JsVal) : List (JsVal × Nat) :=
  vs.foldl (fun acc v => bumpCount acc (modeKey v)) []

/-- calculateFillValue from data-cleaner.ts lines 309-361.  The rows
argument is the original (pre-cleaning) data.  The default switch branch
(reached for remove_row, which cleanData never routes here) returns null. -/
def calculateFillValue (rows : List Row) (columnName : String) (columnType : ColumnType)
    (strategy : MissingValueStrategy) (customValue : Option String) : JsVal :=
  match strategy with
  | MissingValueStrategy.fill_empty => JsVal.str ""
  | MissingValueStrategy.fill_zero => JsVal.num 0
  | MissingValueStrategy.fill_custom => JsVal.str (customValue.getD "")
  | MissingValueStrategy.fill_average =>
    if columnType ≠ ColumnType.number then JsVal.str ""
    else
      let numbers := rows.filterMap (fun r =>
        match getCell r columnName with
        | some (JsVal.num q) => some q
        | _ => Option.none)
      if numbers.length = 0 then JsVal.num 0
      else JsVal.num ((numbers.foldl (fun a b => a + b) 0) / (numbers.length : ℚ))
  | MissingValueStrategy.fill_median =>
    if columnType ≠ ColumnType.number then JsVal.str ""
    else
      let numbers := rows.filterMap (fun r =>
        match getCell r columnName with
        | some (JsVal.num q) => some q
        | _ => Option.none)
      if numbers.length = 0 then JsVal.num 0
      else
        let sorted := sortRats numbers
        let mid := sorted.length / 2
        if sorted.length % 2 = 1 then JsVal.num (sorted.getD mid 0)
        else JsVal.num ((sorted.getD (mid - 1) 0 + sorted.getD mid 0) / 2)
  | MissingValueStrategy.fill_mode =>
    let values := rows.filterMap (fun r =>
      match getCell r columnName with
      | Option.none => Option.none
      | some JsVal.null => Option.none
      | some (JsVal.str "") => Option.none
      | some v => some v)
    if values.length = 0 then JsVal.str ""
    else
      (countsOf values).foldl
        (fun best kv => if best.2 < kv.2 then kv else best) (JsVal.str "", 0) |>.1
  | MissingValueStrategy.remove_row => JsVal.null

/-- Fill every currently-missing cell of one column with the fill value,
returning the new rows and the number of modified cells (the inner forEach
of the fill branch, lines 449-467). -/
def fillColumn (colName : String) (fv : JsVal) : List Row → List Row × Nat
  | [] => ([], 0)
  | row :: rest =>
    let tailRes := fillColumn colName fv rest
    if isMissingValue (getCell row colName) then
      (setCell row colName fv :: tailRes.1, tailRes.2 + 1)
    else (row :: tailRes.1, tailRes.2)

/-- The fill branch of step 3 (lines 440-468): one fill value per column in
scope, computed from the original rows, then applied to every missing cell
of the working rows.  Columns are independent, so visiting columns in the
outer loop (as the source does) and rows in the inner loop yields these
rows and this count. -/
def fillMissing (origRows : List Row) (cols : List ColumnInfo)
    (options : CleaningOptions) (rows : List Row) : List Row × Nat :=
  cols.foldl (fun acc col =>
    let fillValue := calculateFillValue origRows col.name col.type
      options.missingValueStrategy options.customFillValue
    let filled := fillColumn col.name fillValue acc.1
    (filled.1, acc.2 + filled.2)) (rows, 0)

/-- Dropping a prefix never lengthens a list (termination helper). -/
theorem length_dropWhile_le_self (p : Char → Bool) :
    ∀ l : List Char, (l.dropWhile p).length ≤ l.length := by
  intro l
  induction l with
  | nil => simp [List.dropWhile]
  | cons c cs ih =>
    by_cases h : p c
    · simp [List.dropWhile, h]
      omega
    · simp [List.dropWhile, h]

/-- Collapse every whitespace run to one space (replace(/\s+/g, ' ')). -/
def collapseWhitespace : List Char → List Char
  | [] => []
  | c :: cs =>
    if c.isWhitespace then ' ' :: collapseWhitespace (cs.dropWhile Char.isWhitespace)
    else c :: collapseWhitespace cs
termination_by l => l.length
decreasing_by
  · simp_wf
    exact Nat.lt_succ_of_le (length_dropWhile_le_self _ _)
  · simp

/-- value.trim().replace(/\s+/g, ' '), the whitespace normalization of
step 4. -/
def jsTrimCollapse (s : String) : String :=
  String.mk (collapseWhitespace (strTrim s).toList)

/-- Capitalize the first character (charAt(0).toUpperCase() + slice(1)). -/
def capitalizeFirst (w : String) : String :=
  match w.toList with
  | [] => ""
  | c :: cs => String.mk (c.toUpper :: cs)

/-- normalizeCase from data-cleaner.ts lines 289-304. -/
def normalizeCaseStr (value : String) : CaseStrategy → String
  | CaseStrategy.lowercase => strToLower value
  | CaseStrategy.uppercase => strToUpper value
  | CaseStrategy.titlecase =>
    joinWith " "
      ((((strToLower value).toList.splitOn ' ').map String.mk).map capitalizeFirst)
  | CaseStrategy.none => value

/-- Apply a per-cell rewrite over the columns in scope to one row,
counting the modified cells; a none result of the rewrite leaves the cell
untouched. -/
def transformRow (cols : List ColumnInfo) (f : ColumnInfo → Option JsVal → Option JsVal)
    (row : Row) : Row × Nat :=
  cols.foldl (fun acc col =>
    match f col (getCell acc.1 col.name) with
    | some v => (setCell acc.1 col.name v, acc.2 + 1)
    | Option.none => acc) (row, 0)

/-- Map a counting row transformation over all rows, summing the counts. -/
def mapCount (g : Row → Row × Nat) : List Row → List Row × Nat
  | [] => ([], 0)
  | row :: rest =>
    let h := g row
    let t := mapCount g rest
    (h.1 :: t.1, h.2 + t.2)

/-- The per-cell rewrite of step 4: trim and collapse whitespace of string
cells, touching the cell only when that changes it. -/
def trimTransform (v : Option JsVal) : Option JsVal :=
  match v with
  | some (JsVal.str s) =>
    let trimmed := jsTrimCollapse s
    if trimmed ≠ s then some (JsVal.str trimmed) else Option.none
  | _ => Option.none

/-- Step 4, trim whitespace (lines 473-494). -/
def trimStep (cols : List ColumnInfo) (rows : List Row) : List Row × Nat :=
  mapCount (transformRow cols (fun _ v => trimTransform v)) rows

/-- The per-cell rewrite of step 5: normalize the case of non-empty string
cells, touching the cell only when that changes it. -/
def caseTransform (strategy : CaseStrategy) (v : Option JsVal) : Option JsVal :=
  match v with
  | some (JsVal.str s) =>
    if s ≠ "" then
      let normalized := normalizeCaseStr s strategy
      if normalized ≠ s then some (JsVal.str normalized) else Option.none
    else Option.none
  | _ => Option.none

/-- Step 5, normalize case (lines 497-520): only text and category columns
in scope participate. -/
def caseStep (cols : List ColumnInfo) (strategy : CaseStrategy)
    (rows : List Row) : List Row × Nat :=
  mapCount
    (transformRow
      (cols.filter (fun c => c.type = ColumnType.text ∨ c.type = ColumnType.category))
      (fun _ v => caseTransform strategy v))
    rows

/-- The cleaning scope: columnsToClean when non-empty, else all columns. -/
def columnsToProcessOf (columns : List ColumnInfo) (options : CleaningOptions) : List ColumnInfo :=
  if options.columnsToClean.length > 0 then
    columns.filter (fun c => options.columnsToClean.contains c.name)
  else columns

/-- cleanData from data-cleaner.ts lines 366-532: the five steps in their
fixed order, the cleaned rows, and the derived counters.  The initial
copy of every row is the identity on row values here; the mutation
discipline of that copy is verified separately on the heap model below. -/
def cleanData (rows : List Row) (columns : List ColumnInfo)
    (options : CleaningOptions) : List Row × CleaningResult :=
  let columnsToProcess := columnsToProcessOf columns options
  let originalRowCount := rows.length
  let rows1 := if options.removeDuplicates then dedupRows rows else rows
  let rows2 :=
    if options.removeEmptyRows then rows1.filter (fun row => !(allEmptyRow columns row))
    else rows1
  let step3 : List Row × Nat :=
    if options.handleMissingValues then
      if options.missingValueStrategy = MissingValueStrategy.remove_row then
        (rows2.filter (fun row => !(hasMissingIn columnsToProcess row)), 0)
      else fillMissing rows columnsToProcess options rows2
    else (rows2, 0)
  let step4 : List Row × Nat :=
    if options.trimWhitespace then trimStep columnsToProcess step3.1 else (step3.1, 0)
  let step5 : List Row × Nat :=
    if options.normalizeCase then caseStep columnsToProcess options.caseStrategy step4.1
    else (step4.1, 0)
  (step5.1,
   { success := true
     originalRowCount := originalRowCount
     cleanedRowCount := step5.1.length
     removedRows := originalRowCount - step5.1.length
     modifiedCells := step3.2 + step4.2 + step5.2 })

/-- Insert one row index into the hash-keyed group list, appending to the
existing group of its hash or opening a new group at the end (the JS Map
with push, preserving insertion order). -/
def insertGroup (acc : List (Row × List Nat)) (h : Row) (i : Nat) : List (Row × List Nat) :=
  match acc with
  | [] => [(h, [i])]
  | (k, is) :: rest =>
    if k = h then (k, is ++ [i]) :: rest else (k, is) :: insertGroup rest h i

/-- The rows.forEach of the analyzer (lines 68-74), grouping row indices by
hash in first-occurrence order, starting at index i. -/
def groupsAux (acc : List (Row × List Nat)) (i : Nat) : List Row → List (Row × List Nat)
  | [] => acc
  | row :: rest => groupsAux (insertGroup acc (hashRow row) i) (i + 1) rest

/-- The rowHashes map of analyzeDataForCleaning. -/
def rowHashGroups (rows : List Row) : List (Row × List Nat) :=
  groupsAux [] 0 rows

/-- The duplicateRows component of analyzeDataForCleaning (lines 60-81):
for each hash group with more than one member, every index but the first,
in group order. -/
def analyzeDuplicateRows (rows : List Row) : List Nat :=
  (rowHashGroups rows).flatMap (fun g => if 1 < g.2.length then g.2.drop 1 else [])

/-- A heap of row objects; the address of a row is its index.  The caller's
rows array is the address list it passes in. -/
abbrev Heap := List Row

/-- Dereference a row address. -/
def readAt (h : Heap) (a : Nat) : Row := h.getD a []

/-- Overwrite the row object at an address (the in-place cell mutations of
one row are one object write here). -/
def writeAt (h : Heap) (a : Nat) (row : Row) : Heap := h.set a row

/-- Step 1 of cleanData on addresses: keep an address when the hash of its
row has not been seen. -/
def dedupAddrsAux (h : Heap) (seen : List Row) : List Nat → List Nat
  | [] => []
  | a :: rest =>
    if hashRow (readAt h a) ∈ seen then dedupAddrsAux h seen rest
    else a :: dedupAddrsAux h (hashRow (readAt h a) :: seen) rest

/-- The fill branch of step 3 on the heap: per column in scope, one fill
value computed from the rows behind the caller's original addresses, then
a write to every address whose cell is missing (the source mutates
row[col.name] on the copied row objects). -/
def fillPhaseHeap (origAddrs : List Nat) (cols : List ColumnInfo)
    (options : CleaningOptions) (addrs : List Nat) (h : Heap) : Heap :=
  cols.foldl (fun hcur col =>
    let fillValue := calculateFillValue (origAddrs.map (readAt hcur)) col.name col.type
      options.missingValueStrategy options.customFillValue
    addrs.foldl (fun hh a =>
      let row := readAt hh a
      if isMissingValue (getCell row col.name) then
        writeAt hh a (setCell row col.name fillValue)
      else hh) hcur) h

/-- Steps 4 and 5 on the heap: for each working address, replace the row
object by its cell-rewritten form (the source performs the same net update
through per-cell assignments on that object). -/
def rewritePhaseHeap (cols : List ColumnInfo) (f : ColumnInfo → Option JsVal → Option JsVal)
    (addrs : List Nat) (h : Heap) : Heap :=
  addrs.foldl (fun hh a => writeAt hh a (transformRow cols f (readAt hh a)).1) h

/-- cleanData on the heap model, making the copy-then-mutate discipline of
the source explicit: the first line of cleanData allocates a shallow copy
of every input row (fresh addresses at the end of the heap), the removal
steps only drop addresses from the working list, and every heap write of
the fill/trim/case steps targets a working (copied) address.  Returns the
final heap and the addresses of the cleaned rows. -/
def cleanDataHeap (h : Heap) (addrs : List Nat) (columns : List ColumnInfo)
    (options : CleaningOptions) : Heap × List Nat :=
  let h1 := h ++ addrs.map (readAt h)
  let caddrs := (List.range addrs.length).map (fun i => h.length + i)
  let columnsToProcess := columnsToProcessOf columns options
  let a1 := if options.removeDuplicates then dedupAddrsAux h1 [] caddrs else caddrs
  let a2 :=
    if options.removeEmptyRows then a1.filter (fun a => !(allEmptyRow columns (readAt h1 a)))
    else a1
  let a3 :=
    if options.handleMissingValues &&
        (options.missingValueStrategy = MissingValueStrategy.remove_row) then
      a2.filter (fun a => !(hasMissingIn columnsToProcess (readAt h1 a)))
    else a2
  let h3 :=
    if options.handleMissingValues &&
        !(options.missingValueStrategy = MissingValueStrategy.remove_row) then
      fillPhaseHeap addrs columnsToProcess options a2 h1
    else h1
  let h4 :=
    if options.trimWhitespace then
      rewritePhaseHeap columnsToProcess (fun _ v => trimTransform v) a3 h3
    else h3
  let h5 :=
    if options.normalizeCase then
      rewritePhaseHeap
        (columnsToProcess.filter (fun c => c.type = ColumnType.text ∨ c.type = ColumnType.category))
        (fun _ v => caseTransform options.caseStrategy v) a3 h4
    else h4
  (h5, a3)

/-- Filtering by a conjunction keeps at most as many elements as filtering
by one conjunct. -/
theorem length_filter_and_le {α : Type} (p q : α → Bool) (l : List α) :
    (l.filter (fun a => p a && q a)).length ≤ (l.filter p).length := by
  induction l with
  | nil => simp
  | cons a as ih =>
    by_cases hp : p a
    · by_cases hq : q a
      · simp [List.filter_cons, hp, hq]
        omega
      · simp [List.filter_cons, hp, hq]
        omega
    · simp [List.filter_cons, hp]
      exact ih

/-- Both branches of applyFilters coincide with a single filter by the
conjunction of the active filters (an empty active set filters nothing
out). -/
theorem applyFilters_eq (fs : List DataFilter) (d : CsvData) :
    applyFilters fs (some d) =
      d.rows.filter (fun row =>
        (fs.filter (fun g => g.isActive)).all (fun filter => matchesFilter row filter)) := by
  unfold applyFilters
  by_cases h : (fs.filter (fun g => g.isActive)).isEmpty
  · have hnil : fs.filter (fun g => g.isActive) = [] := by
      cases hl : fs.filter (fun g => g.isActive) <;> simp_all
    simp [h, hnil]
  · simp [h]

/-- C4.  Filter monotonicity: for every table, filter list, and additional
filter, appending the extra filter never enlarges the filtered result
(rows are evaluated against the conjunction of all active filters, and an
inactive filter always passes). -/
theorem applyFilters_append_le (fs : List DataFilter) (f : DataFilter) (d : CsvData) :
    (applyFilters (fs ++ [f]) (some d)).length ≤ (applyFilters fs (some d)).length := by
  rw [applyFilters_eq, applyFilters_eq]
  by_cases hf : f.isActive
  · have hsplit : (fs ++ [f]).filter (fun g => g.isActive)
        = fs.filter (fun g => g.isActive) ++ [f] := by
      simp [List.filter_append, hf]
    rw [hsplit]
    have hcong : d.rows.filter (fun row =>
          (fs.filter (fun g => g.isActive) ++ [f]).all (fun filter => matchesFilter row filter))
        = d.rows.filter (fun row =>
          ((fs.filter (fun g => g.isActive)).all (fun filter => matchesFilter row filter))
            && matchesFilter row f) := by
      apply List.filter_congr
      intro row _
      simp [List.all_append]
    rw [hcong]
    exact length_filter_and_le _ _ _
  · have hsplit : (fs ++ [f]).filter (fun g => g.isActive)
        = fs.filter (fun g => g.isActive) := by
      simp [List.filter_append, hf]
    rw [hsplit]

/-- C5.  The two filter evaluators disagree exactly on active category
filters with an empty values list: there the context evaluator rejects
every row while the dashboard inline evaluator accepts every row; on
active category filters with a non-empty values list they agree on every
row. -/
theorem categoryFilter_divergence :
    (∀ (row : Row) (f : DataFilter), f.isActive = true →
        f.data = FilterData.category [] →
        matchesFilter row f = false ∧ dashboardMatches row f = true) ∧
    (∀ (row : Row) (f : DataFilter) (vs : List String), f.isActive = true →
        f.data = FilterData.category vs → vs ≠ [] →
        matchesFilter row f = dashboardMatches row f) := by
  constructor
  · intro row f hact hdata
    obtain ⟨i, cn, ia, dt⟩ := f
    simp only at hact hdata
    subst hact
    subst hdata
    constructor
    · simp [matchesFilter]
    · simp [dashboardMatches]
  · intro row f vs hact hdata hne
    obtain ⟨i, cn, ia, dt⟩ := f
    simp only at hact hdata
    subst hact
    subst hdata
    have hne2 : vs.isEmpty = false := by
      cases vs <;> simp_all
    simp [matchesFilter, dashboardMatches, hne2]

/-- Closed instance of the divergence theorem at a concrete row and two
concrete category filters. -/
theorem categoryFilter_divergence_witness :
    (matchesFilter [("Region", JsVal.str "North")]
        { id := "f1", columnName := "Region", isActive := true,
          data := FilterData.category [] } = false ∧
      dashboardMatches [("Region", JsVal.str "North")]
        { id := "f1", columnName := "Region", isActive := true,
          data := FilterData.category [] } = true) ∧
    matchesFilter [("Region", JsVal.str "North")]
        { id := "f2", columnName := "Region", isActive := true,
          data := FilterData.category ["North", "South"] }
      = dashboardMatches [("Region", JsVal.str "North")]
        { id := "f2", columnName := "Region", isActive := true,
          data := FilterData.category ["North", "South"] } := by
  constructor
  · exact categoryFilter_divergence.1 [("Region", JsVal.str "North")]
      { id := "f1", columnName := "Region", isActive := true,
        data := FilterData.category [] } rfl rfl
  · exact categoryFilter_divergence.2 [("Region", JsVal.str "North")]
      { id := "f2", columnName := "Region", isActive := true,
        data := FilterData.category ["North", "South"] }
      ["North", "South"] rfl rfl (by simp)

/-- C6.  Category cardinality boundary.  First, the Region scenario: six
non-empty values with three distinct ones classify as text for every
behavior of the date primitive (all values are at most six characters, so
the length guard rejects them) as long as parseFloat fails on the word
North.  Second, the general boundary: any non-name-like column that fails
the date and number tests, with sample-distinct count at most 30 and
non-empty count exactly twice the distinct count, classifies as text. -/
theorem detect_region_boundary :
    (∀ (dateValid : String → Bool) (parseNum : String → Option ℚ),
        parseNum "North" = Option.none →
        detectColumnType dateValid parseNum
          [some "North", some "South", some "North", some "East", some "South", some "North"]
          (some "Region") = ColumnType.text) ∧
    (∀ (dateValid : String → Bool) (parseNum : String → Option ℚ)
        (values : List (Option String)) (columnName : Option String),
        isNameLikeColumn columnName = false →
        dateTestPasses dateValid values = false →
        numberTestPasses parseNum values = false →
        sampleDistinctCount values ≤ 30 →
        (nonEmptyValuesOf values).length = 2 * sampleDistinctCount values →
        detectColumnType dateValid parseNum values columnName = ColumnType.text) := by
  constructor
  · intro dateValid parseNum hn
    have hdate : dateTestPasses dateValid
        [some "North", some "South", some "North", some "East", some "South", some "North"]
        = false := by
      unfold dateTestPasses
      rw [List.all_eq_false]
      refine ⟨"North", by decide, ?_⟩
      have hpat : matchesDatePattern "North" = false := by decide
      have hlen : ("North" : String).length = 5 := by decide
      simp [hpat, hlen]
    have hnum : numberTestPasses parseNum
        [some "North", some "South", some "North", some "East", some "South", some "North"]
        = false := by
      unfold numberTestPasses
      rw [List.all_eq_false]
      refine ⟨"North", by decide, ?_⟩
      have hstrip : stripCommaDollar "North" = "North" := by decide
      simp [hstrip, hn]
    simp only [detectColumnType, hdate, hnum]
    rfl
  · intro dateValid parseNum values columnName hname hdate hnum hcard hcount
    simp only [detectColumnType, hdate, hnum, hname]
    have hlt : ¬ (sampleDistinctCount values * 2 < (nonEmptyValuesOf values).length) := by
      omega
    simp [hlt]

/-- Closed instance of the boundary theorem: the Region column with six
values and three distinct ones classifies as text, under a concrete date
primitive and a concrete failing parseFloat. -/
theorem detect_region_boundary_witness :
    detectColumnType (fun _ => false) (fun _ => Option.none)
        [some "North", some "South", some "North", some "East", some "South", some "North"]
        (some "Region") = ColumnType.text ∧
      detectColumnType (fun _ => false) (fun _ => Option.none)
        [some "North", some "South", some "North", some "East", some "South", some "North"]
        (some "Region") = ColumnType.text :=
  ⟨detect_region_boundary.1 (fun _ => false) (fun _ => Option.none) rfl,
   detect_region_boundary.2 (fun _ => false) (fun _ => Option.none)
     [some "North", some "South", some "North", some "East", some "South", some "North"]
     (some "Region") (by decide) (by decide) (by decide) (by decide) (by decide)⟩

/-- Mapping some and filtering non-empty is the identity on a list of
non-empty strings. -/
theorem nonEmptyValuesOf_map_some (vals : List String) (h : ∀ v ∈ vals, v ≠ "") :
    nonEmptyValuesOf (vals.map some) = vals := by
  induction vals with
  | nil => rfl
  | cons v vs ih =>
    have hv : v ≠ "" := h v (by simp)
    simp only [List.map_cons, nonEmptyValuesOf, List.filterMap_cons]
    rw [if_neg hv]
    have := ih (fun w hw => h w (by simp [hw]))
    simp only [nonEmptyValuesOf] at this
    rw [this]

/-- Insertion grows the sorted list by one element. -/
theorem length_insertSortedString (s : String) (l : List String) :
    (insertSortedString s l).length = l.length + 1 := by
  induction l with
  | nil => rfl
  | cons t ts ih =>
    by_cases h : charListLt s.data t.data
    · simp [insertSortedString, String.toList, h]
    · simp [insertSortedString, String.toList, h, ih]

/-- Sorting preserves length. -/
theorem length_sortStrings (l : List String) :
    (sortStrings l).length = l.length := by
  induction l with
  | nil => rfl
  | cons s ss ih => simp [sortStrings, length_insertSortedString, ih]

/-- Deduplication is the identity on a list with no duplicates, none of
whose elements have been seen. -/
theorem dedupKeepFirstAux_of_nodup {α : Type} [DecidableEq α] (l : List α) :
    ∀ seen : List α, l.Nodup → (∀ x ∈ l, x ∉ seen) → dedupKeepFirstAux seen l = l := by
  induction l with
  | nil => intro seen _ _; rfl
  | cons x xs ih =>
    intro seen hnd hseen
    have hx : x ∉ seen := hseen x (by simp)
    have hnd2 := hnd
    rw [List.nodup_cons] at hnd2
    simp only [dedupKeepFirstAux, if_neg hx]
    rw [ih (x :: seen) hnd2.2]
    intro y hy
    simp only [List.mem_cons]
    push_neg
    constructor
    · intro hyx
      exact hnd2.1 (hyx ▸ hy)
    · exact hseen y (List.mem_cons_of_mem _ hy)

/-- C7.  Name-like override: a column named Customer Name holding 50
distinct non-empty values that fail the date and number tests classifies
as category (the name-like keyword match with at least two non-empty
values bypasses the 30-distinct cardinality rule), and its uniqueValues
statistic, computed over the full column, has 50 entries. -/
theorem detect_nameLike_override (dateValid : String → Bool) (parseNum : String → Option ℚ)
    (vals : List String) (h50 : vals.length = 50) (hnd : vals.Nodup)
    (hne : ∀ v ∈ vals, v ≠ "")
    (hdate : dateTestPasses dateValid (vals.map some) = false)
    (hnum : numberTestPasses parseNum (vals.map some) = false) :
    detectColumnType dateValid parseNum (vals.map some) (some "Customer Name")
        = ColumnType.category ∧
      (getUniqueValues (vals.map some)).length = 50 := by
  have hvals : nonEmptyValuesOf (vals.map some) = vals := nonEmptyValuesOf_map_some vals hne
  constructor
  · have hlike : isNameLikeColumn (some "Customer Name") = true := by decide
    simp only [detectColumnType, hvals, h50, hdate, hnum, hlike]
    norm_num
  · unfold getUniqueValues dedupKeepFirst
    rw [hvals, dedupKeepFirstAux_of_nodup vals [] hnd (by simp), length_sortStrings, h50]

/-- Closed instance of the name-like override at 50 concrete distinct
customer labels. -/
theorem detect_nameLike_override_witness :
    detectColumnType (fun _ => false) (fun _ => Option.none)
        (["c00", "c01", "c02", "c03", "c04", "c05", "c06", "c07", "c08", "c09", "c10", "c11", "c12", "c13", "c14", "c15", "c16", "c17", "c18", "c19", "c20", "c21", "c22", "c23", "c24", "c25", "c26", "c27", "c28", "c29", "c30", "c31", "c32", "c33", "c34", "c35", "c36", "c37", "c38", "c39", "c40", "c41", "c42", "c43", "c44", "c45", "c46", "c47", "c48", "c49"].map some) (some "Customer Name") = ColumnType.category ∧
      (getUniqueValues (["c00", "c01", "c02", "c03", "c04", "c05", "c06", "c07", "c08", "c09", "c10", "c11", "c12", "c13", "c14", "c15", "c16", "c17", "c18", "c19", "c20", "c21", "c22", "c23", "c24", "c25", "c26", "c27", "c28", "c29", "c30", "c31", "c32", "c33", "c34", "c35", "c36", "c37", "c38", "c39", "c40", "c41", "c42", "c43", "c44", "c45", "c46", "c47", "c48", "c49"].map some)).length = 50 :=
  detect_nameLike_override (fun _ => false) (fun _ => Option.none)
    ["c00", "c01", "c02", "c03", "c04", "c05", "c06", "c07", "c08", "c09", "c10", "c11", "c12", "c13", "c14", "c15", "c16", "c17", "c18", "c19", "c20", "c21", "c22", "c23", "c24", "c25", "c26", "c27", "c28", "c29", "c30", "c31", "c32", "c33", "c34", "c35", "c36", "c37", "c38", "c39", "c40", "c41", "c42", "c43", "c44", "c45", "c46", "c47", "c48", "c49"]
    (by decide) (by decide) (by decide) (by decide) (by decide)

/-- Deduplication never lengthens a list. -/
theorem length_dedupKeepFirstAux_le {α : Type} [DecidableEq α] :
    ∀ (l : List α) (seen : List α), (dedupKeepFirstAux seen l).length ≤ l.length := by
  intro l
  induction l with
  | nil => intro seen; simp [dedupKeepFirstAux]
  | cons x xs ih =>
    intro seen
    by_cases h : x ∈ seen
    · simp only [dedupKeepFirstAux, if_pos h]
      have := ih seen
      simp only [List.length_cons]
      omega
    · simp only [dedupKeepFirstAux, if_neg h, List.length_cons]
      have := ih (x :: seen)
      omega

/-- The customer Set is never larger than the row count. -/
theorem distinctCustomerCount_le (data : List Row) (c : String) :
    distinctCustomerCount data c ≤ data.length := by
  unfold distinctCustomerCount dedupKeepFirst
  refine le_trans (length_dedupKeepFirstAux_le _ _) ?_
  rw [List.length_map]
  exact List.length_filterMap_le _ _

/-- C8.  KPI bounds: totalOrders is always the row count (also when zero),
uniqueCustomers, the count of distinct non-empty string forms of the
customer column, never exceeds totalOrders, averageOrderValue is 0
whenever totalOrders is zero or totalSales is not positive, and equals
totalSales divided by totalOrders when both are positive. -/
theorem calculateKpis_bounds (data : List Row) (config : KpiConfig) :
    (calculateKpis data config).totalOrders = data.length ∧
    (calculateKpis data config).uniqueCustomers ≤ data.length ∧
    ((calculateKpis data config).totalOrders = 0 ∨
        jsPos (calculateKpis data config).totalSales = false →
      (calculateKpis data config).averageOrderValue = some 0) ∧
    (∀ q : ℚ, (calculateKpis data config).totalSales = some q → 0 < q →
      0 < data.length →
      (calculateKpis data config).averageOrderValue = some (q / (data.length : ℚ))) := by
  refine ⟨?_, ?_, ?_, ?_⟩
  · by_cases hlen : data.length = 0 <;> simp [calculateKpis, hlen]
  · by_cases hlen : data.length = 0
    · simp [calculateKpis, hlen]
    · simp only [calculateKpis, hlen, if_false]
      match hc : config.customerColumn with
      | Option.none => simp
      | some c =>
        by_cases hce : c = ""
        · simp [hce]
        · simp only [hce, if_false]
          exact distinctCustomerCount_le data c
  · intro h
    by_cases hlen : data.length = 0
    · simp [calculateKpis, hlen]
    · rcases h with h | h
      · simp only [calculateKpis, hlen, if_false] at h
      · simp only [calculateKpis, hlen, if_false] at h ⊢
        rw [h]
        simp
  · intro q hq hqpos hdl
    have hlen : ¬ data.length = 0 := by omega
    simp only [calculateKpis, hlen, if_false] at hq ⊢
    rw [hq]
    have hjs : jsPos (some q) = true := by simp [jsPos, hqpos]
    simp [hjs, hdl]

/-- Closed instance of the KPI bounds at a one-row table. -/
theorem calculateKpis_bounds_witness :
    (calculateKpis [[("customer", JsVal.str "a"), ("sales", JsVal.num 10)]]
        { salesColumn := some "sales", quantityColumn := Option.none,
          customerColumn := some "customer", dateColumn := Option.none }).totalOrders = 1 ∧
    (calculateKpis [[("customer", JsVal.str "a"), ("sales", JsVal.num 10)]]
        { salesColumn := some "sales", quantityColumn := Option.none,
          customerColumn := some "customer", dateColumn := Option.none }).uniqueCustomers ≤ 1 ∧
    (calculateKpis [[("customer", JsVal.str "a"), ("sales", JsVal.num 10)]]
        { salesColumn := some "sales", quantityColumn := Option.none,
          customerColumn := some "customer", dateColumn := Option.none }).averageOrderValue
      = some 10 := by
  have h := calculateKpis_bounds [[("customer", JsVal.str "a"), ("sales", JsVal.num 10)]]
    { salesColumn := some "sales", quantityColumn := Option.none,
      customerColumn := some "customer", dateColumn := Option.none }
  refine ⟨h.1, h.2.1, ?_⟩
  have hts : (calculateKpis [[("customer", JsVal.str "a"), ("sales", JsVal.num 10)]]
      { salesColumn := some "sales", quantityColumn := Option.none,
        customerColumn := some "customer", dateColumn := Option.none }).totalSales
      = some 10 := by
    simp [calculateKpis, sumColumn, jsAdd, numContribution, getCell]
  have h4 := h.2.2.2 10 hts (by norm_num) (by decide)
  rw [h4]
  norm_num

/-- Folding the sales sum from NaN stays NaN. -/
theorem foldSales_none (data : List Row) (c : String) :
    data.foldl (fun sum row => jsAdd sum (numContribution (getCell row c))) Option.none
      = Option.none := by
  induction data with
  | nil => rfl
  | cons row rest ih =>
    have hstep : jsAdd Option.none (numContribution (getCell row c)) = Option.none := rfl
    simp only [List.foldl_cons, hstep]
    exact ih

/-- Without NaN cells the code sum agrees with the plain finite sum, for
any starting accumulator. -/
theorem foldSales_no_nan (c : String) :
    ∀ (data : List Row) (a : ℚ), (∀ row ∈ data, getCell row c ≠ some JsVal.nan) →
      data.foldl (fun sum row => jsAdd sum (numContribution (getCell row c))) (some a)
        = some (data.foldl (fun sum row =>
            match getCell row c with
            | some (JsVal.num q) => sum + q
            | _ => sum) a) := by
  intro data
  induction data with
  | nil => intro a _; rfl
  | cons row rest ih =>
    intro a h
    have hrow : getCell row c ≠ some JsVal.nan := h row (by simp)
    have hrest : ∀ r ∈ rest, getCell r c ≠ some JsVal.nan :=
      fun r hr => h r (List.mem_cons_of_mem _ hr)
    match hv : getCell row c with
    | some (JsVal.num q) =>
      simp only [List.foldl_cons, hv, numContribution, jsAdd]
      exact ih (a + q) hrest
    | some JsVal.nan => exact absurd hv hrow
    | Option.none =>
      simp only [List.foldl_cons, hv, numContribution, jsAdd]
      rw [add_zero]
      exact ih a hrest
    | some (JsVal.str s) =>
      simp only [List.foldl_cons, hv, numContribution, jsAdd]
      rw [add_zero]
      exact ih a hrest
    | some (JsVal.date d) =>
      simp only [List.foldl_cons, hv, numContribution, jsAdd]
      rw [add_zero]
      exact ih a hrest
    | some JsVal.null =>
      simp only [List.foldl_cons, hv, numContribution, jsAdd]
      rw [add_zero]
      exact ih a hrest

/-- With a NaN cell anywhere in the column, the code sum is NaN, for any
finite starting accumulator. -/
theorem foldSales_nan (c : String) :
    ∀ (data : List Row) (a : ℚ), (∃ row ∈ data, getCell row c = some JsVal.nan) →
      data.foldl (fun sum row => jsAdd sum (numContribution (getCell row c))) (some a)
        = Option.none := by
  intro data
  induction data with
  | nil => intro a h; simp at h
  | cons row rest ih =>
    intro a h
    match hv : getCell row c with
    | some JsVal.nan =>
      simp only [List.foldl_cons, hv, numContribution, jsAdd]
      exact foldSales_none rest c
    | some (JsVal.num q) =>
      rcases h with ⟨r, hr, hnan⟩
      rcases List.mem_cons.mp hr with rfl | hr2
      · rw [hv] at hnan; exact absurd hnan (by simp)
      · simp only [List.foldl_cons, hv, numContribution, jsAdd]
        exact ih (a + q) ⟨r, hr2, hnan⟩
    | Option.none =>
      rcases h with ⟨r, hr, hnan⟩
      rcases List.mem_cons.mp hr with rfl | hr2
      · rw [hv] at hnan; exact absurd hnan (by simp)
      · simp only [List.foldl_cons, hv, numContribution, jsAdd]
        rw [add_zero]
        exact ih a ⟨r, hr2, hnan⟩
    | some (JsVal.str s) =>
      rcases h with ⟨r, hr, hnan⟩
      rcases List.mem_cons.mp hr with rfl | hr2
      · rw [hv] at hnan; exact absurd hnan (by simp)
      · simp only [List.foldl_cons, hv, numContribution, jsAdd]
        rw [add_zero]
        exact ih a ⟨r, hr2, hnan⟩
    | some (JsVal.date d) =>
      rcases h with ⟨r, hr, hnan⟩
      rcases List.mem_cons.mp hr with rfl | hr2
      · rw [hv] at hnan; exact absurd hnan (by simp)
      · simp only [List.foldl_cons, hv, numContribution, jsAdd]
        rw [add_zero]
        exact ih a ⟨r, hr2, hnan⟩
    | some JsVal.null =>
      rcases h with ⟨r, hr, hnan⟩
      rcases List.mem_cons.mp hr with rfl | hr2
      · rw [hv] at hnan; exact absurd hnan (by simp)
      · simp only [List.foldl_cons, hv, numContribution, jsAdd]
        rw [add_zero]
        exact ih a ⟨r, hr2, hnan⟩

/-- C3 counterexample: at a one-row table whose sales cell is NaN (as the
parser stores for an unparseable number entry), totalSales is NaN, not the
claimed plain sum in which such a cell contributes 0. -/
theorem calculateKpis_totalSales_nan_counterexample :
    (calculateKpis [[("sales", JsVal.nan)]]
        { salesColumn := some "sales", quantityColumn := Option.none,
          customerColumn := Option.none, dateColumn := Option.none }).totalSales
        = Option.none ∧
      (calculateKpis [[("sales", JsVal.nan)]]
        { salesColumn := some "sales", quantityColumn := Option.none,
          customerColumn := Option.none, dateColumn := Option.none }).totalSales
        ≠ some (specFiniteSum [[("sales", JsVal.nan)]] "sales") := by
  constructor
  · simp [calculateKpis, sumColumn, jsAdd, numContribution, getCell]
  · simp [calculateKpis, sumColumn, jsAdd, numContribution, getCell]

/-- C3 amended.  For a configured (non-empty) sales column, totalSales is
the NaN-propagating sum in which number-typed cells contribute their value
and all other cells contribute 0: when no cell of the column is NaN it
equals the plain finite sum of the claim, and when any cell is NaN the
whole totalSales is NaN rather than counting that cell as 0. -/
theorem calculateKpis_totalSales_amended (data : List Row) (config : KpiConfig)
    (c : String) (hc : config.salesColumn = some c) (hcne : c ≠ "") :
    ((∀ row ∈ data, getCell row c ≠ some JsVal.nan) →
      (calculateKpis data config).totalSales = some (specFiniteSum data c)) ∧
    ((∃ row ∈ data, getCell row c = some JsVal.nan) →
      (calculateKpis data config).totalSales = Option.none) := by
  constructor
  · intro h
    by_cases hlen : data.length = 0
    · have hdata : data = [] := List.length_eq_zero.mp hlen
      subst hdata
      simp [calculateKpis, specFiniteSum]
    · simp only [calculateKpis, hlen, if_false, hc, hcne, if_neg hcne]
      exact foldSales_no_nan c data 0 h
  · intro h
    have hlen : data.length ≠ 0 := by
      rcases h with ⟨r, hr, _⟩
      have := List.length_pos_of_mem hr
      omega
    simp only [calculateKpis, hlen, if_false, hc, hcne, if_neg hcne]
    exact foldSales_nan c data 0 h

/-- Closed instance of the amended totalSales behavior: a NaN-free table
sums finitely, a table with a NaN sales cell yields NaN. -/
theorem calculateKpis_totalSales_amended_witness :
    (calculateKpis [[("sales", JsVal.num 5)], [("sales", JsVal.str "x")]]
        { salesColumn := some "sales", quantityColumn := Option.none,
          customerColumn := Option.none, dateColumn := Option.none }).totalSales
        = some (specFiniteSum [[("sales", JsVal.num 5)], [("sales", JsVal.str "x")]] "sales") ∧
      (calculateKpis [[("sales", JsVal.nan)]]
        { salesColumn := some "sales", quantityColumn := Option.none,
          customerColumn := Option.none, dateColumn := Option.none }).totalSales
        = Option.none := by
  constructor
  · exact (calculateKpis_totalSales_amended
      [[("sales", JsVal.num 5)], [("sales", JsVal.str "x")]]
      { salesColumn := some "sales", quantityColumn := Option.none,
        customerColumn := Option.none, dateColumn := Option.none }
      "sales" rfl (by simp)).1 (by
        intro row hrow
        rcases List.mem_cons.mp hrow with rfl | h2
        · simp [getCell]
        · rcases List.mem_cons.mp h2 with rfl | h3
          · simp [getCell]
          · simp at h3)
  · exact (calculateKpis_totalSales_amended [[("sales", JsVal.nan)]]
      { salesColumn := some "sales", quantityColumn := Option.none,
        customerColumn := Option.none, dateColumn := Option.none }
      "sales" rfl (by simp)).2 ⟨[("sales", JsVal.nan)], by simp, by simp [getCell]⟩

/-- C10.  Exporting an empty table yields the empty string with no header
line, for every column list; exporting a non-empty table starts with the
comma-joined column names followed by a newline; and the parser, handed an
empty row set (as Papa.parse produces for the empty string), fails with
PARSE_ERROR or CSV_EMPTY rather than returning a table, so the
export/import round-trip cannot hold for zero-row tables. -/
theorem convertToCsv_empty_and_header :
    (∀ columns : List ColumnInfo, convertToCsv [] columns = "") ∧
    (∀ (row : Row) (rows : List Row) (columns : List ColumnInfo),
      ∃ rest : String, convertToCsv (row :: rows) columns
        = joinWith "," (columns.map (fun col => col.name)) ++ "\n" ++ rest) ∧
    (∀ (dateValid : String → Bool) (parseNum : String → Option ℚ) (fileName : String)
        (results : PapaResults), results.data = [] →
      (∃ e, parseCsvFromResults dateValid parseNum fileName results
          = CsvParseResult.failure e CsvErrorCode.PARSE_ERROR) ∨
      parseCsvFromResults dateValid parseNum fileName results
          = CsvParseResult.failure "CSV file is empty or has no valid data rows"
              CsvErrorCode.CSV_EMPTY) := by
  refine ⟨fun columns => rfl, ?_, ?_⟩
  · intro row rows columns
    exact ⟨_, rfl⟩
  · intro dateValid parseNum fileName results hdata
    by_cases he : results.errors.length > 0
    · left
      exact ⟨results.errors.headD "", by simp [parseCsvFromResults, hdata, he]⟩
    · right
      simp [parseCsvFromResults, hdata, he]

/-- Closed instance of the export/parse boundary behavior. -/
theorem convertToCsv_empty_witness :
    convertToCsv [] [{ name := "a", type := ColumnType.number }] = "" ∧
    (∃ rest : String, convertToCsv [[("a", JsVal.num 1)]]
        [{ name := "a", type := ColumnType.number }]
      = joinWith ","
          (([{ name := "a", type := ColumnType.number }] : List ColumnInfo).map
            (fun col => col.name))
          ++ "\n" ++ rest) ∧
    ((∃ e, parseCsvFromResults (fun _ => false) (fun _ => Option.none) "f.csv"
          { errors := [], data := [], fields := Option.none }
        = CsvParseResult.failure e CsvErrorCode.PARSE_ERROR) ∨
      parseCsvFromResults (fun _ => false) (fun _ => Option.none) "f.csv"
          { errors := [], data := [], fields := Option.none }
        = CsvParseResult.failure "CSV file is empty or has no valid data rows"
            CsvErrorCode.CSV_EMPTY) :=
  ⟨convertToCsv_empty_and_header.1 [{ name := "a", type := ColumnType.number }],
   convertToCsv_empty_and_header.2.1 [("a", JsVal.num 1)] []
     [{ name := "a", type := ColumnType.number }],
   convertToCsv_empty_and_header.2.2 (fun _ => false) (fun _ => Option.none) "f.csv"
     { errors := [], data := [], fields := Option.none } rfl⟩

/-- Inserting an index adds one to the total size of the groups. -/
theorem sumLens_insertGroup (acc : List (Row × List Nat)) (h : Row) (i : Nat) :
    ((insertGroup acc h i).map (fun g => g.2.length)).sum
      = ((acc.map (fun g => g.2.length)).sum) + 1 := by
  induction acc with
  | nil => simp [insertGroup]
  | cons g rest ih =>
    obtain ⟨k, is⟩ := g
    by_cases hk : k = h
    · simp [insertGroup, hk]
      omega
    · simp only [insertGroup, if_neg hk, List.map_cons, List.sum_cons, ih]
      omega

/-- Inserting an index for a known hash keeps the group list and its key
list unchanged in shape. -/
theorem insertGroup_mem (acc : List (Row × List Nat)) (h : Row) (i : Nat)
    (hmem : h ∈ acc.map Prod.fst) :
    (insertGroup acc h i).length = acc.length ∧
      (insertGroup acc h i).map Prod.fst = acc.map Prod.fst := by
  induction acc with
  | nil => simp at hmem
  | cons g rest ih =>
    obtain ⟨k, is⟩ := g
    by_cases hk : k = h
    · simp [insertGroup, hk]
    · have hmem2 : h ∈ rest.map Prod.fst := by
        rcases List.mem_map.mp hmem with ⟨g2, hg2, hfst⟩
        rcases List.mem_cons.mp hg2 with rfl | hg3
        · exact absurd hfst hk
        · exact List.mem_map.mpr ⟨g2, hg3, hfst⟩
      have := ih hmem2
      simp only [insertGroup, if_neg hk, List.length_cons, List.map_cons]
      exact ⟨by omega, by rw [this.2]⟩

/-- Inserting an index for a fresh hash appends a new singleton group. -/
theorem insertGroup_not_mem (acc : List (Row × List Nat)) (h : Row) (i : Nat)
    (hmem : h ∉ acc.map Prod.fst) :
    insertGroup acc h i = acc ++ [(h, [i])] := by
  induction acc with
  | nil => rfl
  | cons g rest ih =>
    obtain ⟨k, is⟩ := g
    have hk : k ≠ h := by
      intro hkh
      exact hmem (by simp [hkh])
    have hmem2 : h ∉ rest.map Prod.fst := by
      intro hm
      exact hmem (by simp [hm])
    simp only [insertGroup, if_neg hk, List.cons_append]
    rw [ih hmem2]

/-- Insertion preserves non-emptiness of every group. -/
theorem insertGroup_nonempty (acc : List (Row × List Nat)) (h : Row) (i : Nat)
    (hne : ∀ g ∈ acc, g.2 ≠ []) :
    ∀ g ∈ insertGroup acc h i, g.2 ≠ [] := by
  induction acc with
  | nil =>
    intro g hg
    simp only [insertGroup, List.mem_singleton] at hg
    subst hg
    simp
  | cons g0 rest ih =>
    obtain ⟨k, is⟩ := g0
    by_cases hk : k = h
    · intro g hg
      simp only [insertGroup, if_pos hk, List.mem_cons] at hg
      rcases hg with rfl | hg2
      · simp
      · exact hne g (List.mem_cons_of_mem _ hg2)
    · intro g hg
      simp only [insertGroup, if_neg hk, List.mem_cons] at hg
      rcases hg with rfl | hg2
      · exact hne (k, is) (by simp)
      · exact ih (fun g2 hg2b => hne g2 (List.mem_cons_of_mem _ hg2b)) g hg2

/-- A group list with non-empty groups has no more groups than total
indices. -/
theorem length_le_sumLens (l : List (Row × List Nat)) (hne : ∀ g ∈ l, g.2 ≠ []) :
    l.length ≤ (l.map (fun g => g.2.length)).sum := by
  induction l with
  | nil => simp
  | cons r rs ih =>
    have hr : r.2 ≠ [] := hne r (by simp)
    have hr1 : 0 < r.2.length := List.length_pos.mpr hr
    have hih := ih (fun g hg => hne g (List.mem_cons_of_mem _ hg))
    simp only [List.map_cons, List.sum_cons, List.length_cons]
    omega

/-- The flattened duplicate list of a group list with non-empty groups has
the total size minus the number of groups as its length. -/
theorem flatMap_dup_length (acc : List (Row × List Nat)) (hne : ∀ g ∈ acc, g.2 ≠ []) :
    (acc.flatMap (fun g => if 1 < g.2.length then g.2.drop 1 else [])).length
      = ((acc.map (fun g => g.2.length)).sum) - acc.length := by
  induction acc with
  | nil => rfl
  | cons g rest ih =>
    have hg : g.2 ≠ [] := hne g (by simp)
    have hg1 : 0 < g.2.length := List.length_pos.mpr hg
    have hrest := ih (fun g2 hg2 => hne g2 (List.mem_cons_of_mem _ hg2))
    have hsumge := length_le_sumLens rest (fun g2 hg2 => hne g2 (List.mem_cons_of_mem _ hg2))
    by_cases h1 : 1 < g.2.length
    · simp only [List.flatMap_cons, if_pos h1, List.length_append, List.length_drop, hrest,
        List.map_cons, List.sum_cons, List.length_cons]
      omega
    · simp only [List.flatMap_cons, if_neg h1, List.nil_append, hrest,
        List.map_cons, List.sum_cons, List.length_cons]
      omega

/-- Processing rows adds one index per row to the total group size. -/
theorem groupsAux_sumLens :
    ∀ (rows : List Row) (acc : List (Row × List Nat)) (i : Nat),
      ((groupsAux acc i rows).map (fun g => g.2.length)).sum
        = ((acc.map (fun g => g.2.length)).sum) + rows.length := by
  intro rows
  induction rows with
  | nil => intro acc i; simp [groupsAux]
  | cons r rs ih =>
    intro acc i
    simp only [groupsAux, List.length_cons]
    rw [ih, sumLens_insertGroup]
    omega

/-- The accumulator keeps non-empty groups while rows are processed. -/
theorem groupsAux_nonempty :
    ∀ (rows : List Row) (acc : List (Row × List Nat)) (i : Nat),
      (∀ g ∈ acc, g.2 ≠ []) → ∀ g ∈ groupsAux acc i rows, g.2 ≠ [] := by
  intro rows
  induction rows with
  | nil => intro acc i hne; exact hne
  | cons r rs ih =>
    intro acc i hne
    exact ih _ _ (insertGroup_nonempty acc (hashRow r) i hne)

/-- The number of groups grows exactly by the number of rows that the
duplicate-removal pass keeps, when the accumulator keys and the seen set
agree. -/
theorem groupsAux_length :
    ∀ (rows : List Row) (acc : List (Row × List Nat)) (i : Nat) (seen : List Row),
      (∀ h, h ∈ acc.map Prod.fst ↔ h ∈ seen) →
      (groupsAux acc i rows).length = acc.length + (dedupRowsAux seen rows).length := by
  intro rows
  induction rows with
  | nil => intro acc i seen _; simp [groupsAux, dedupRowsAux]
  | cons r rs ih =>
    intro acc i seen hiff
    by_cases hmem : hashRow r ∈ seen
    · have hkey : hashRow r ∈ acc.map Prod.fst := (hiff (hashRow r)).mpr hmem
      have hins := insertGroup_mem acc (hashRow r) i hkey
      simp only [groupsAux, dedupRowsAux, if_pos hmem]
      rw [ih (insertGroup acc (hashRow r) i) (i + 1) seen]
      · rw [hins.1]
      · intro h
        rw [hins.2]
        exact hiff h
    · have hkey : hashRow r ∉ acc.map Prod.fst := fun hk => hmem ((hiff (hashRow r)).mp hk)
      have hins := insertGroup_not_mem acc (hashRow r) i hkey
      simp only [groupsAux, dedupRowsAux, if_neg hmem]
      rw [ih (insertGroup acc (hashRow r) i) (i + 1) (hashRow r :: seen)]
      · rw [hins]
        simp only [List.length_append, List.length_cons, List.length_nil]
        omega
      · intro h
        rw [hins]
        simp only [List.map_append, List.mem_append, List.map_cons, List.map_nil,
          List.mem_cons, List.mem_singleton]
        constructor
        · intro hc
          rcases hc with hc | hc
          · exact Or.inr ((hiff h).mp hc)
          · simp at hc
            exact Or.inl hc
        · intro hc
          rcases hc with hc | hc
          · exact Or.inr (by simp [hc])
          · exact Or.inl ((hiff h).mpr hc)

/-- The duplicate-removal pass never keeps more rows than it reads. -/
theorem dedupRowsAux_length_le :
    ∀ (rows : List Row) (seen : List Row), (dedupRowsAux seen rows).length ≤ rows.length := by
  intro rows
  induction rows with
  | nil => intro seen; simp [dedupRowsAux]
  | cons r rs ih =>
    intro seen
    by_cases hmem : hashRow r ∈ seen
    · simp only [dedupRowsAux, if_pos hmem, List.length_cons]
      have := ih seen
      omega
    · simp only [dedupRowsAux, if_neg hmem, List.length_cons]
      have := ih (hashRow r :: seen)
      omega

/-- The kept rows of the duplicate-removal pass have pairwise distinct
hashes, none of them previously seen. -/
theorem dedupRowsAux_nodup :
    ∀ (rows : List Row) (seen : List Row),
      ((dedupRowsAux seen rows).map hashRow).Nodup ∧
        ∀ r ∈ dedupRowsAux seen rows, hashRow r ∉ seen := by
  intro rows
  induction rows with
  | nil => intro seen; simp [dedupRowsAux]
  | cons r rs ih =>
    intro seen
    by_cases hmem : hashRow r ∈ seen
    · simp only [dedupRowsAux, if_pos hmem]
      exact ih seen
    · have hih := ih (hashRow r :: seen)
      simp only [dedupRowsAux, if_neg hmem, List.map_cons, List.nodup_cons]
      refine ⟨⟨?_, hih.1⟩, ?_⟩
      · intro hcontra
        rcases List.mem_map.mp hcontra with ⟨r2, hr2, hhash⟩
        exact hih.2 r2 hr2 (by simp [hhash])
      · intro r2 hr2
        rcases List.mem_cons.mp hr2 with rfl | hr3
        · exact hmem
        · intro hs
          exact hih.2 r2 hr3 (List.mem_cons_of_mem _ hs)

/-- A group list of singletons flattens to no duplicate indices. -/
theorem short_flatMap_nil (l : List (Row × List Nat)) (h : ∀ g ∈ l, g.2.length ≤ 1) :
    l.flatMap (fun g => if 1 < g.2.length then g.2.drop 1 else []) = [] := by
  induction l with
  | nil => rfl
  | cons g rest ih =>
    have hg : ¬ 1 < g.2.length := by
      have := h g (by simp)
      omega
    simp only [List.flatMap_cons, if_neg hg, List.nil_append]
    exact ih (fun g2 hg2 => h g2 (List.mem_cons_of_mem _ hg2))

/-- When the incoming hashes avoid the accumulator keys and each other,
every group stays a singleton. -/
theorem groupsAux_short :
    ∀ (rows : List Row) (acc : List (Row × List Nat)) (i : Nat),
      (∀ g ∈ acc, g.2.length ≤ 1) →
      (acc.map Prod.fst ++ rows.map hashRow).Nodup →
      ∀ g ∈ groupsAux acc i rows, g.2.length ≤ 1 := by
  intro rows
  induction rows with
  | nil => intro acc i hshort _; exact hshort
  | cons r rs ih =>
    intro acc i hshort hnd
    simp only [List.map_cons] at hnd
    have hdisj := List.disjoint_of_nodup_append hnd
    have hmem : hashRow r ∉ acc.map Prod.fst := by
      intro hk
      exact hdisj hk (by simp)
    have hins := insertGroup_not_mem acc (hashRow r) i hmem
    simp only [groupsAux]
    rw [hins]
    apply ih
    · intro g hg
      rcases List.mem_append.mp hg with hg2 | hg2
      · exact hshort g hg2
      · simp only [List.mem_singleton] at hg2
        subst hg2
        simp
    · rw [List.map_append]
      simp only [List.map_cons, List.map_nil]
      have : acc.map Prod.fst ++ [hashRow r] ++ rs.map hashRow
          = acc.map Prod.fst ++ hashRow r :: rs.map hashRow := by
        rw [List.append_assoc]
        rfl
      rw [this]
      exact hnd

/-- The analyzer's duplicate count plus the deduplicated length is the row
count. -/
theorem analyzeDuplicateRows_length (rows : List Row) :
    (analyzeDuplicateRows rows).length + (dedupRows rows).length = rows.length := by
  unfold analyzeDuplicateRows rowHashGroups dedupRows
  have hne := groupsAux_nonempty rows [] 0 (by simp)
  rw [flatMap_dup_length _ hne]
  have hsum := groupsAux_sumLens rows [] 0
  have hlen := groupsAux_length rows [] 0 [] (by simp)
  have hle := dedupRowsAux_length_le rows []
  have hcount := length_le_sumLens _ hne
  simp only [List.map_nil, List.sum_nil, List.length_nil, Nat.zero_add] at hsum hlen
  omega

/-- After duplicate removal the analyzer reports no duplicate rows. -/
theorem analyzeDuplicateRows_dedup_nil (rows : List Row) :
    analyzeDuplicateRows (dedupRows rows) = [] := by
  have hnodup : ((dedupRows rows).map hashRow).Nodup := (dedupRowsAux_nodup rows []).1
  unfold analyzeDuplicateRows rowHashGroups
  apply short_flatMap_nil
  apply groupsAux_short _ [] 0 (by simp)
  simpa using hnodup

/-- With only duplicate removal enabled, cleanData is exactly the
duplicate-removal pass and modifies no cells. -/
theorem cleanData_dedup_only (rows : List Row) (columns : List ColumnInfo)
    (options : CleaningOptions)
    (h1 : options.removeDuplicates = true) (h2 : options.removeEmptyRows = false)
    (h3 : options.handleMissingValues = false) (h4 : options.trimWhitespace = false)
    (h5 : options.normalizeCase = false) :
    (cleanData rows columns options).1 = dedupRows rows ∧
      (cleanData rows columns options).2.modifiedCells = 0 := by
  simp [cleanData, h1, h2, h3, h4, h5]

/-- C2.  Duplicate-count agreement: with only removeDuplicates enabled,
cleanData keeps exactly the row count minus the analyzer's duplicateRows
count, and the analyzer finds no duplicate rows in the cleaned output. -/
theorem cleanData_duplicate_count (rows : List Row) (columns : List ColumnInfo)
    (options : CleaningOptions)
    (h1 : options.removeDuplicates = true) (h2 : options.removeEmptyRows = false)
    (h3 : options.handleMissingValues = false) (h4 : options.trimWhitespace = false)
    (h5 : options.normalizeCase = false) :
    (cleanData rows columns options).1.length
        = rows.length - (analyzeDuplicateRows rows).length ∧
      analyzeDuplicateRows ((cleanData rows columns options).1) = [] := by
  have hd := cleanData_dedup_only rows columns options h1 h2 h3 h4 h5
  have hlen := analyzeDuplicateRows_length rows
  constructor
  · rw [hd.1]
    omega
  · rw [hd.1]
    exact analyzeDuplicateRows_dedup_nil rows

/-- Closed instance of the duplicate-count agreement on a three-row table
with one duplicated row. -/
theorem cleanData_duplicate_count_witness :
    (cleanData [[("a", JsVal.num 1)], [("a", JsVal.num 1)], [("a", JsVal.num 2)]] []
        { removeDuplicates := true, trimWhitespace := false, normalizeCase := false,
          caseStrategy := CaseStrategy.lowercase, handleMissingValues := false,
          missingValueStrategy := MissingValueStrategy.fill_empty,
          customFillValue := Option.none, removeEmptyRows := false,
          columnsToClean := [] }).1.length
      = [[("a", JsVal.num 1)], [("a", JsVal.num 1)], [("a", JsVal.num 2)]].length
          - (analyzeDuplicateRows
              [[("a", JsVal.num 1)], [("a", JsVal.num 1)], [("a", JsVal.num 2)]]).length ∧
    analyzeDuplicateRows
        ((cleanData [[("a", JsVal.num 1)], [("a", JsVal.num 1)], [("a", JsVal.num 2)]] []
          { removeDuplicates := true, trimWhitespace := false, normalizeCase := false,
            caseStrategy := CaseStrategy.lowercase, handleMissingValues := false,
            missingValueStrategy := MissingValueStrategy.fill_empty,
            customFillValue := Option.none, removeEmptyRows := false,
            columnsToClean := [] }).1) = [] :=
  cleanData_duplicate_count
    [[("a", JsVal.num 1)], [("a", JsVal.num 1)], [("a", JsVal.num 2)]] []
    { removeDuplicates := true, trimWhitespace := false, normalizeCase := false,
      caseStrategy := CaseStrategy.lowercase, handleMissingValues := false,
      missingValueStrategy := MissingValueStrategy.fill_empty,
      customFillValue := Option.none, removeEmptyRows := false,
      columnsToClean := [] }
    rfl rfl rfl rfl rfl

/-- The duplicate-removal pass returns a sublist of its input. -/
theorem dedupRowsAux_sublist :
    ∀ (rows : List Row) (seen : List Row), List.Sublist (dedupRowsAux seen rows) rows := by
  intro rows
  induction rows with
  | nil => intro seen; simp [dedupRowsAux]
  | cons r rs ih =>
    intro seen
    by_cases hmem : hashRow r ∈ seen
    · simp only [dedupRowsAux, if_pos hmem]
      exact List.Sublist.cons r (ih seen)
    · simp only [dedupRowsAux, if_neg hmem]
      exact List.Sublist.cons₂ r (ih (hashRow r :: seen))

/-- The duplicate-removal pass is the identity on rows with pairwise
distinct, unseen hashes. -/
theorem dedupRowsAux_eq_self :
    ∀ (rows : List Row) (seen : List Row), ((rows.map hashRow).Nodup) →
      (∀ r ∈ rows, hashRow r ∉ seen) → dedupRowsAux seen rows = rows := by
  intro rows
  induction rows with
  | nil => intro seen _ _; rfl
  | cons r rs ih =>
    intro seen hnd hseen
    have hr : hashRow r ∉ seen := hseen r (by simp)
    simp only [List.map_cons, List.nodup_cons] at hnd
    simp only [dedupRowsAux, if_neg hr]
    rw [ih (hashRow r :: seen) hnd.2]
    intro r2 hr2
    simp only [List.mem_cons]
    push_neg
    constructor
    · intro heq
      exact hnd.1 (heq ▸ List.mem_map_of_mem hashRow hr2)
    · exact hseen r2 (List.mem_cons_of_mem _ hr2)

/-- Duplicate removal is the identity on a list with pairwise distinct
hashes. -/
theorem dedupRows_eq_self (l : List Row) (h : (l.map hashRow).Nodup) :
    dedupRows l = l :=
  dedupRowsAux_eq_self l [] h (by simp)

/-- Hash distinctness passes to sublists. -/
theorem nodup_hashes_sublist {l l2 : List Row} (hs : List.Sublist l2 l)
    (h : (l.map hashRow).Nodup) : (l2.map hashRow).Nodup :=
  (hs.map hashRow).nodup h

/-- Filtering twice by the same predicate is filtering once. -/
theorem filter_twice {α : Type} (p : α → Bool) (l : List α) :
    (l.filter p).filter p = l.filter p := by
  rw [List.filter_eq_self]
  intro a ha
  exact List.of_mem_filter ha

/-- Under removal-only options the cleaner modifies no cells. -/
theorem cleanData_no_modify (rows : List Row) (columns : List ColumnInfo)
    (options : CleaningOptions)
    (h4 : options.trimWhitespace = false) (h5 : options.normalizeCase = false)
    (h3 : options.handleMissingValues = false ∨
      options.missingValueStrategy = MissingValueStrategy.remove_row) :
    (cleanData rows columns options).2.modifiedCells = 0 := by
  rcases h3 with h3 | h3
  · simp [cleanData, h3, h4, h5]
  · by_cases hm : options.handleMissingValues <;> simp [cleanData, hm, h3, h4, h5]

/-- removedRows is always the input length minus the output length. -/
theorem cleanData_removedRows (rows : List Row) (columns : List ColumnInfo)
    (options : CleaningOptions) :
    (cleanData rows columns options).2.removedRows
      = rows.length - (cleanData rows columns options).1.length := rfl

/-- The pairwise hash distinctness of the duplicate-removal output. -/
theorem dedupRows_nodup_hashes (rows : List Row) :
    ((dedupRows rows).map hashRow).Nodup :=
  (dedupRowsAux_nodup rows []).1

/-- Under removal-only options, cleaning its own output changes nothing:
the three removal stages are each stable on the first pass's rows. -/
theorem cleanData_removal_stable (rows : List Row) (columns : List ColumnInfo)
    (options : CleaningOptions)
    (h4 : options.trimWhitespace = false) (h5 : options.normalizeCase = false)
    (h3 : options.handleMissingValues = false ∨
      options.missingValueStrategy = MissingValueStrategy.remove_row) :
    (cleanData (cleanData rows columns options).1 columns options).1
      = (cleanData rows columns options).1 := by
  obtain ⟨d, tw, nc, cs, m, strat, cf, e, ctc⟩ := options
  simp only at h4 h5 h3
  subst h4
  subst h5
  cases m with
  | false =>
    cases d with
    | false =>
      cases e with
      | false => rfl
      | true =>
        show List.filter (fun row => !(allEmptyRow columns row))
            (List.filter (fun row => !(allEmptyRow columns row)) rows)
          = List.filter (fun row => !(allEmptyRow columns row)) rows
        exact filter_twice _ _
    | true =>
      cases e with
      | false =>
        show dedupRows (dedupRows rows) = dedupRows rows
        exact dedupRows_eq_self _ (dedupRows_nodup_hashes rows)
      | true =>
        show List.filter (fun row => !(allEmptyRow columns row))
            (dedupRows (List.filter (fun row => !(allEmptyRow columns row)) (dedupRows rows)))
          = List.filter (fun row => !(allEmptyRow columns row)) (dedupRows rows)
        have hnd := nodup_hashes_sublist
          (@List.filter_sublist Row (fun row => !(allEmptyRow columns row)) (dedupRows rows))
          (dedupRows_nodup_hashes rows)
        rw [dedupRows_eq_self _ hnd]
        exact filter_twice _ _
  | true =>
    rcases h3 with h3 | h3
    · simp at h3
    subst h3
    cases d with
    | false =>
      cases e with
      | false =>
        show List.filter (fun row =>
              !(hasMissingIn (columnsToProcessOf columns
                ⟨false, false, false, cs, true, MissingValueStrategy.remove_row, cf, false, ctc⟩) row))
            (List.filter (fun row =>
              !(hasMissingIn (columnsToProcessOf columns
                ⟨false, false, false, cs, true, MissingValueStrategy.remove_row, cf, false, ctc⟩) row))
              rows)
          = List.filter (fun row =>
              !(hasMissingIn (columnsToProcessOf columns
                ⟨false, false, false, cs, true, MissingValueStrategy.remove_row, cf, false, ctc⟩) row))
              rows
        exact filter_twice _ _
      | true =>
        show List.filter (fun row =>
              !(hasMissingIn (columnsToProcessOf columns
                ⟨false, false, false, cs, true, MissingValueStrategy.remove_row, cf, true, ctc⟩) row))
            (List.filter (fun row => !(allEmptyRow columns row))
              (List.filter (fun row =>
                !(hasMissingIn (columnsToProcessOf columns
                  ⟨false, false, false, cs, true, MissingValueStrategy.remove_row, cf, true, ctc⟩) row))
                (List.filter (fun row => !(allEmptyRow columns row)) rows)))
          = List.filter (fun row =>
              !(hasMissingIn (columnsToProcessOf columns
                ⟨false, false, false, cs, true, MissingValueStrategy.remove_row, cf, true, ctc⟩) row))
              (List.filter (fun row => !(allEmptyRow columns row)) rows)
        have h2 : List.filter (fun row => !(allEmptyRow columns row))
            (List.filter (fun row =>
              !(hasMissingIn (columnsToProcessOf columns
                ⟨false, false, false, cs, true, MissingValueStrategy.remove_row, cf, true, ctc⟩) row))
              (List.filter (fun row => !(allEmptyRow columns row)) rows))
            = List.filter (fun row =>
              !(hasMissingIn (columnsToProcessOf columns
                ⟨false, false, false, cs, true, MissingValueStrategy.remove_row, cf, true, ctc⟩) row))
              (List.filter (fun row => !(allEmptyRow columns row)) rows) := by
          rw [List.filter_eq_self]
          intro r hr
          have hr2 := List.mem_of_mem_filter hr
          simpa using List.of_mem_filter hr2
        rw [h2]
        rw [List.filter_eq_self]
        intro r hr
        simpa using List.of_mem_filter hr
    | true =>
      cases e with
      | false =>
        show List.filter (fun row =>
              !(hasMissingIn (columnsToProcessOf columns
                ⟨true, false, false, cs, true, MissingValueStrategy.remove_row, cf, false, ctc⟩) row))
            (dedupRows (List.filter (fun row =>
              !(hasMissingIn (columnsToProcessOf columns
                ⟨true, false, false, cs, true, MissingValueStrategy.remove_row, cf, false, ctc⟩) row))
              (dedupRows rows)))
          = List.filter (fun row =>
              !(hasMissingIn (columnsToProcessOf columns
                ⟨true, false, false, cs, true, MissingValueStrategy.remove_row, cf, false, ctc⟩) row))
              (dedupRows rows)
        have hnd := nodup_hashes_sublist
          (@List.filter_sublist Row (fun row =>
            !(hasMissingIn (columnsToProcessOf columns
              ⟨true, false, false, cs, true, MissingValueStrategy.remove_row, cf, false, ctc⟩) row))
            (dedupRows rows))
          (dedupRows_nodup_hashes rows)
        rw [dedupRows_eq_self _ hnd]
        exact filter_twice _ _
      | true =>
        show List.filter (fun row =>
              !(hasMissingIn (columnsToProcessOf columns
                ⟨true, false, false, cs, true, MissingValueStrategy.remove_row, cf, true, ctc⟩) row))
            (List.filter (fun row => !(allEmptyRow columns row))
              (dedupRows (List.filter (fun row =>
                !(hasMissingIn (columnsToProcessOf columns
                  ⟨true, false, false, cs, true, MissingValueStrategy.remove_row, cf, true, ctc⟩) row))
                (List.filter (fun row => !(allEmptyRow columns row)) (dedupRows rows)))))
          = List.filter (fun row =>
              !(hasMissingIn (columnsToProcessOf columns
                ⟨true, false, false, cs, true, MissingValueStrategy.remove_row, cf, true, ctc⟩) row))
              (List.filter (fun row => !(allEmptyRow columns row)) (dedupRows rows))
        have hsub : List.Sublist
            (List.filter (fun row =>
              !(hasMissingIn (columnsToProcessOf columns
                ⟨true, false, false, cs, true, MissingValueStrategy.remove_row, cf, true, ctc⟩) row))
              (List.filter (fun row => !(allEmptyRow columns row)) (dedupRows rows)))
            (dedupRows rows) :=
          List.Sublist.trans (List.filter_sublist _) (List.filter_sublist _)
        have hnd := nodup_hashes_sublist hsub (dedupRows_nodup_hashes rows)
        rw [dedupRows_eq_self _ hnd]
        have h2 : List.filter (fun row => !(allEmptyRow columns row))
            (List.filter (fun row =>
              !(hasMissingIn (columnsToProcessOf columns
                ⟨true, false, false, cs, true, MissingValueStrategy.remove_row, cf, true, ctc⟩) row))
              (List.filter (fun row => !(allEmptyRow columns row)) (dedupRows rows)))
            = List.filter (fun row =>
              !(hasMissingIn (columnsToProcessOf columns
                ⟨true, false, false, cs, true, MissingValueStrategy.remove_row, cf, true, ctc⟩) row))
              (List.filter (fun row => !(allEmptyRow columns row)) (dedupRows rows)) := by
          rw [List.filter_eq_self]
          intro r hr
          have hr2 := List.mem_of_mem_filter hr
          simpa using List.of_mem_filter hr2
        rw [h2]
        rw [List.filter_eq_self]
        intro r hr
        simpa using List.of_mem_filter hr

/-- C1 counterexample: with the fill_empty strategy, the empty-string fill
value written by the first pass is itself classified as missing, so the
second pass on the cleaned rows modifies the same cell again; cleaning is
not idempotent as claimed. -/
theorem cleanData_idempotence_counterexample :
    ¬ ((cleanData
          (cleanData [[("a", JsVal.null)]] [{ name := "a", type := ColumnType.text }]
            { removeDuplicates := false, trimWhitespace := false, normalizeCase := false,
              caseStrategy := CaseStrategy.lowercase, handleMissingValues := true,
              missingValueStrategy := MissingValueStrategy.fill_empty,
              customFillValue := Option.none, removeEmptyRows := false,
              columnsToClean := [] }).1
          [{ name := "a", type := ColumnType.text }]
          { removeDuplicates := false, trimWhitespace := false, normalizeCase := false,
            caseStrategy := CaseStrategy.lowercase, handleMissingValues := true,
            missingValueStrategy := MissingValueStrategy.fill_empty,
            customFillValue := Option.none, removeEmptyRows := false,
            columnsToClean := [] }).2.removedRows = 0 ∧
        (cleanData
          (cleanData [[("a", JsVal.null)]] [{ name := "a", type := ColumnType.text }]
            { removeDuplicates := false, trimWhitespace := false, normalizeCase := false,
              caseStrategy := CaseStrategy.lowercase, handleMissingValues := true,
              missingValueStrategy := MissingValueStrategy.fill_empty,
              customFillValue := Option.none, removeEmptyRows := false,
              columnsToClean := [] }).1
          [{ name := "a", type := ColumnType.text }]
          { removeDuplicates := false, trimWhitespace := false, normalizeCase := false,
            caseStrategy := CaseStrategy.lowercase, handleMissingValues := true,
            missingValueStrategy := MissingValueStrategy.fill_empty,
            customFillValue := Option.none, removeEmptyRows := false,
            columnsToClean := [] }).2.modifiedCells = 0) := by
  decide

/-- C1 amended.  Cleaning is idempotent for removal-only option sets: when
whitespace trimming and case normalization are off and missing-value
handling is either off or set to remove_row, a second run of cleanData on
its own cleaned rows with the same columns and options removes zero rows
and modifies zero cells.  (With a fill strategy the invariant fails: the
fill_empty and fill_mode fill values can themselves be classified as
missing, and cell rewrites can create new duplicates for a later pass.) -/
theorem cleanData_removal_idempotent (rows : List Row) (columns : List ColumnInfo)
    (options : CleaningOptions)
    (h4 : options.trimWhitespace = false) (h5 : options.normalizeCase = false)
    (h3 : options.handleMissingValues = false ∨
      options.missingValueStrategy = MissingValueStrategy.remove_row) :
    (cleanData (cleanData rows columns options).1 columns options).2.removedRows = 0 ∧
      (cleanData (cleanData rows columns options).1 columns options).2.modifiedCells = 0 := by
  constructor
  · rw [cleanData_removedRows]
    rw [cleanData_removal_stable rows columns options h4 h5 h3]
    omega
  · exact cleanData_no_modify _ _ _ h4 h5 h3

/-- Closed instance of removal-only idempotence: duplicates, empty rows
and rows with missing values removed from a four-row table, then cleaned
again. -/
theorem cleanData_removal_idempotent_witness :
    (cleanData
        (cleanData
          [[("a", JsVal.str "x")], [("a", JsVal.str "x")], [("a", JsVal.null)],
            [("a", JsVal.str "y")]]
          [{ name := "a", type := ColumnType.text }]
          { removeDuplicates := true, trimWhitespace := false, normalizeCase := false,
            caseStrategy := CaseStrategy.lowercase, handleMissingValues := true,
            missingValueStrategy := MissingValueStrategy.remove_row,
            customFillValue := Option.none, removeEmptyRows := true,
            columnsToClean := [] }).1
        [{ name := "a", type := ColumnType.text }]
        { removeDuplicates := true, trimWhitespace := false, normalizeCase := false,
          caseStrategy := CaseStrategy.lowercase, handleMissingValues := true,
          missingValueStrategy := MissingValueStrategy.remove_row,
          customFillValue := Option.none, removeEmptyRows := true,
          columnsToClean := [] }).2.removedRows = 0 ∧
      (cleanData
        (cleanData
          [[("a", JsVal.str "x")], [("a", JsVal.str "x")], [("a", JsVal.null)],
            [("a", JsVal.str "y")]]
          [{ name := "a", type := ColumnType.text }]
          { removeDuplicates := true, trimWhitespace := false, normalizeCase := false,
            caseStrategy := CaseStrategy.lowercase, handleMissingValues := true,
            missingValueStrategy := MissingValueStrategy.remove_row,
            customFillValue := Option.none, removeEmptyRows := true,
            columnsToClean := [] }).1
        [{ name := "a", type := ColumnType.text }]
        { removeDuplicates := true, trimWhitespace := false, normalizeCase := false,
          caseStrategy := CaseStrategy.lowercase, handleMissingValues := true,
          missingValueStrategy := MissingValueStrategy.remove_row,
          customFillValue := Option.none, removeEmptyRows := true,
          columnsToClean := [] }).2.modifiedCells = 0 :=
  cleanData_removal_idempotent
    [[("a", JsVal.str "x")], [("a", JsVal.str "x")], [("a", JsVal.null)],
      [("a", JsVal.str "y")]]
    [{ name := "a", type := ColumnType.text }]
    { removeDuplicates := true, trimWhitespace := false, normalizeCase := false,
      caseStrategy := CaseStrategy.lowercase, handleMissingValues := true,
      missingValueStrategy := MissingValueStrategy.remove_row,
      customFillValue := Option.none, removeEmptyRows := true,
      columnsToClean := [] }
    rfl rfl (Or.inr rfl)

/-- A write at an address past the prefix leaves the prefix unchanged. -/
theorem take_writeAt :
    ∀ (hh : Heap) (n a : Nat) (row : Row), n ≤ a →
      (writeAt hh a row).take n = hh.take n := by
  intro hh
  induction hh with
  | nil => intro n a row _; simp [writeAt]
  | cons r rs ih =>
    intro n a row hle
    cases a with
    | zero =>
      have hn : n = 0 := Nat.le_zero.mp hle
      subst hn
      simp
    | succ a2 =>
      cases n with
      | zero => simp
      | succ n2 =>
        simp only [writeAt, List.set_cons_succ, List.take_succ_cons]
        have := ih n2 a2 row (Nat.le_of_succ_le_succ hle)
        simp only [writeAt] at this
        rw [this]

/-- A fold of guarded writes at addresses past the prefix leaves the
prefix unchanged. -/
theorem foldl_write_if_frame (g : Heap → Nat → Row) (p : Heap → Nat → Bool) (n : Nat) :
    ∀ (addrs : List Nat) (hh : Heap), (∀ a ∈ addrs, n ≤ a) →
      (addrs.foldl (fun hcur a => if p hcur a then writeAt hcur a (g hcur a) else hcur)
          hh).take n
        = hh.take n := by
  intro addrs
  induction addrs with
  | nil => intro hh _; rfl
  | cons a rest ih =>
    intro hh hb
    have ha : n ≤ a := hb a (by simp)
    have hrest : ∀ a2 ∈ rest, n ≤ a2 := fun a2 h2 => hb a2 (List.mem_cons_of_mem _ h2)
    simp only [List.foldl_cons]
    rw [ih _ hrest]
    by_cases hp : p hh a
    · rw [if_pos hp]
      exact take_writeAt hh n a (g hh a) ha
    · rw [if_neg hp]

/-- The rewrite phase (trim or case step) leaves the prefix unchanged when
all worked addresses lie past it. -/
theorem rewritePhaseHeap_take (cols : List ColumnInfo)
    (f : ColumnInfo → Option JsVal → Option JsVal) (n : Nat) :
    ∀ (addrs : List Nat) (hh : Heap), (∀ a ∈ addrs, n ≤ a) →
      (rewritePhaseHeap cols f addrs hh).take n = hh.take n := by
  intro addrs
  induction addrs with
  | nil => intro hh _; rfl
  | cons a rest ih =>
    intro hh hb
    have ha : n ≤ a := hb a (by simp)
    have hrest : ∀ a2 ∈ rest, n ≤ a2 := fun a2 h2 => hb a2 (List.mem_cons_of_mem _ h2)
    simp only [rewritePhaseHeap, List.foldl_cons] at ih ⊢
    rw [ih _ hrest]
    exact take_writeAt hh n a _ ha

/-- The fill phase leaves the prefix unchanged when all worked addresses
lie past it. -/
theorem fillPhaseHeap_take (origAddrs : List Nat) (options : CleaningOptions) (n : Nat) :
    ∀ (cols : List ColumnInfo) (addrs : List Nat) (hh : Heap), (∀ a ∈ addrs, n ≤ a) →
      (fillPhaseHeap origAddrs cols options addrs hh).take n = hh.take n := by
  intro cols
  induction cols with
  | nil => intro addrs hh _; rfl
  | cons col rest ih =>
    intro addrs hh hb
    simp only [fillPhaseHeap, List.foldl_cons] at ih ⊢
    rw [ih addrs _ hb]
    exact foldl_write_if_frame
      (fun hcur a => setCell (readAt hcur a) col.name
        (calculateFillValue (origAddrs.map (readAt hh)) col.name col.type
          options.missingValueStrategy options.customFillValue))
      (fun hcur a => isMissingValue (getCell (readAt hcur a) col.name))
      n addrs hh hb

/-- The duplicate pass on addresses keeps a subset of them. -/
theorem dedupAddrsAux_subset (h1 : Heap) :
    ∀ (l : List Nat) (seen : List Row) (b : Nat), b ∈ dedupAddrsAux h1 seen l → b ∈ l := by
  intro l
  induction l with
  | nil => intro seen b hb; simp [dedupAddrsAux] at hb
  | cons a rest ih =>
    intro seen b hb
    by_cases hmem : hashRow (readAt h1 a) ∈ seen
    · simp only [dedupAddrsAux, if_pos hmem] at hb
      exact List.mem_cons_of_mem _ (ih seen b hb)
    · simp only [dedupAddrsAux, if_neg hmem] at hb
      rcases List.mem_cons.mp hb with rfl | hb2
      · simp
      · exact List.mem_cons_of_mem _ (ih _ b hb2)

/-- C9.  cleanData does not mutate its inputs: on the heap model of the
source, where the first line copies every row object to fresh addresses
and all later writes target working (copied) addresses, the caller's
original heap prefix is unchanged after the run, and every returned
cleaned-row address lies in the fresh region, so the cleaned rows share no
mutated state with the caller's table. -/
theorem cleanDataHeap_frame (h : Heap) (addrs : List Nat) (columns : List ColumnInfo)
    (options : CleaningOptions) :
    (cleanDataHeap h addrs columns options).1.take h.length = h ∧
      ∀ b ∈ (cleanDataHeap h addrs columns options).2, h.length ≤ b := by
  simp only [cleanDataHeap]
  set h1 := h ++ addrs.map (readAt h) with hh1def
  set caddrs := (List.range addrs.length).map (fun i => h.length + i) with hcaddrsdef
  set a1 := if options.removeDuplicates then dedupAddrsAux h1 [] caddrs else caddrs with ha1def
  set a2 := if options.removeEmptyRows then
      a1.filter (fun a => !(allEmptyRow columns (readAt h1 a)))
    else a1 with ha2def
  set a3 := if options.handleMissingValues &&
      (options.missingValueStrategy = MissingValueStrategy.remove_row) then
      a2.filter (fun a => !(hasMissingIn (columnsToProcessOf columns options) (readAt h1 a)))
    else a2 with ha3def
  have hca : ∀ b ∈ caddrs, h.length ≤ b := by
    intro b hb
    rw [hcaddrsdef] at hb
    rcases List.mem_map.mp hb with ⟨i, _, rfl⟩
    omega
  have ha1 : ∀ b ∈ a1, h.length ≤ b := by
    intro b hb
    rw [ha1def] at hb
    apply hca
    by_cases hd : options.removeDuplicates
    · rw [if_pos hd] at hb
      exact dedupAddrsAux_subset h1 caddrs [] b hb
    · rwa [if_neg hd] at hb
  have ha2 : ∀ b ∈ a2, h.length ≤ b := by
    intro b hb
    rw [ha2def] at hb
    apply ha1
    by_cases he : options.removeEmptyRows
    · rw [if_pos he] at hb
      exact List.mem_of_mem_filter hb
    · rwa [if_neg he] at hb
  have ha3 : ∀ b ∈ a3, h.length ≤ b := by
    intro b hb
    rw [ha3def] at hb
    apply ha2
    by_cases hm : (options.handleMissingValues &&
        (options.missingValueStrategy = MissingValueStrategy.remove_row) : Bool)
    · rw [if_pos hm] at hb
      exact List.mem_of_mem_filter hb
    · rwa [if_neg hm] at hb
  have t1 : h1.take h.length = h := by
    rw [hh1def]
    exact List.take_left h (addrs.map (readAt h))
  have t3 : (if options.handleMissingValues &&
        !(options.missingValueStrategy = MissingValueStrategy.remove_row) then
        fillPhaseHeap addrs (columnsToProcessOf columns options) options a2 h1
      else h1).take h.length = h := by
    by_cases hm : (options.handleMissingValues &&
        !(options.missingValueStrategy = MissingValueStrategy.remove_row) : Bool)
    · rw [if_pos hm]
      rw [fillPhaseHeap_take addrs options h.length (columnsToProcessOf columns options) a2 h1 ha2]
      exact t1
    · rw [if_neg hm]
      exact t1
  constructor
  · set h3 := if options.handleMissingValues &&
        !(options.missingValueStrategy = MissingValueStrategy.remove_row) then
        fillPhaseHeap addrs (columnsToProcessOf columns options) options a2 h1
      else h1 with hh3def
    set h4 := if options.trimWhitespace then
        rewritePhaseHeap (columnsToProcessOf columns options) (fun _ v => trimTransform v) a3 h3
      else h3 with hh4def
    have t4 : h4.take h.length = h := by
      rw [hh4def]
      by_cases ht : options.trimWhitespace
      · rw [if_pos ht]
        rw [rewritePhaseHeap_take _ _ h.length a3 h3 ha3]
        exact t3
      · rw [if_neg ht]
        exact t3
    by_cases hn : options.normalizeCase
    · rw [if_pos hn]
      rw [rewritePhaseHeap_take _ _ h.length a3 h4 ha3]
      exact t4
    · rw [if_neg hn]
      exact t4
  · exact ha3
